import Mathlib

/-!
# Verification of the paint-by-numbers pipeline

A shallow embedding, in Lean 4, of the core pipeline of the `pbnturtle`
repository (Go): the k-d tree spatial index (`kdtree.go`), the adaptive
sampler (`voronoi.go` part), palette clustering and quantization
(`wasm/paintbynumbers.go`), the width-configurable border renderer
(`wasm/wasm_helpers.go`), the region labeler (`textdraw.go`) and the
parameter validation of the WASM entry point (`wasm/main.go`).

Modelling conventions:
* Go `int` is modelled as `Int` (image dimensions, being non-negative,
  are `Nat` where the source guarantees it).
* Go `float64` squared distances are modelled as exact `Int` arithmetic:
  every squared distance computed by the program (pixel coordinates,
  16-bit color channels) is far below 2^53, so `float64` arithmetic and
  comparison on them are exact.  `math.MaxFloat64`, used only as an
  initial sentinel that every real distance is strictly below, is
  modelled as `Option.none` (none = +infinity).
* `color.Color` values flowing through the pipeline are `color.RGBA`
  values (8-bit per channel); `RGBA()` converts a channel `v` to the
  16-bit value `v * 257` (`v |= v << 8`).
* Fallible operations (out-of-range slice indexing, loops that the Go
  code would never exit) are modelled with `Option`, `none` marking a
  panic or divergence of the Go program.
-/

/-- `color.RGBA`: 8-bit RGBA color, the color representation used by
every stage of the pipeline. -/
structure Color where
  r : Nat
  g : Nat
  b : Nat
  a : Nat
deriving DecidableEq, Repr

/-- The zero `color.RGBA{}` (what `image.RGBA.At` returns out of bounds). -/
def cZero : Color := ⟨0, 0, 0, 0⟩

/-- `Point` from the Voronoi sampler: a 2D point with an associated
color and its index in the points array. -/
structure Point where
  x : Int
  y : Int
  color : Color
  index : Int
deriving DecidableEq, Repr

/-- Junk point used as the default of in-bounds list indexing
(Go indexing panics out of bounds; all reads below are in bounds). -/
def pZero : Point := ⟨0, 0, cZero, 0⟩

/-- The coordinate of a point on a split axis (0 = X, 1 = Y),
as read by `sortPointsByAxis` and `findNearestHelper`. -/
def axisVal (p : Point) (axis : Nat) : Int :=
  if axis = 0 then p.x else p.y

/-- One step of the insertion sort of `sortPointsByAxis` (kdtree.go
lines 60-89): insert `p` into the already sorted prefix `acc`, after
every element whose coordinate is `≤` the coordinate of `p` (the Go
inner loop shifts elements while `pointVal > keyVal`, so `p` lands
right after the last element with `pointVal ≤ keyVal`). -/
def insertByAxis (axis : Nat) (p : Point) : List Point → List Point
  | [] => [p]
  | q :: qs =>
    if axisVal q axis ≤ axisVal p axis then q :: insertByAxis axis p qs
    else p :: q :: qs

/-- `sortPointsByAxis` (kdtree.go lines 60-89): stable insertion sort of
the points by X (axis = 0) or Y (axis = 1); the in-place left-to-right
loop is modelled as iterated insertion into the sorted prefix. -/
def sortPointsByAxis (ps : List Point) (axis : Nat) : List Point :=
  ps.foldl (fun acc p => insertByAxis axis p acc) []

theorem insertByAxis_length (axis : Nat) (p : Point) (l : List Point) :
    (insertByAxis axis p l).length = l.length + 1 := by
  induction l with
  | nil => rfl
  | cons q qs ih =>
    unfold insertByAxis
    by_cases h : axisVal q axis ≤ axisVal p axis <;> simp [h, ih]

theorem sortPointsByAxis_foldl_length (axis : Nat) (ps acc : List Point) :
    (ps.foldl (fun acc p => insertByAxis axis p acc) acc).length
      = ps.length + acc.length := by
  induction ps generalizing acc with
  | nil => simp
  | cons p ps ih =>
    simp only [List.foldl_cons]
    rw [ih]
    simp only [insertByAxis_length, List.length_cons]
    omega

theorem sortPointsByAxis_length (ps : List Point) (axis : Nat) :
    (sortPointsByAxis ps axis).length = ps.length := by
  unfold sortPointsByAxis
  simpa using sortPointsByAxis_foldl_length axis ps []

/-- A `*kdNode` pointer (kdtree.go lines 8-13): either `nil` or a node
holding a point, left/right children and the split axis (0 = X, 1 = Y). -/
inductive KDTreeN where
  | nil : KDTreeN
  | node (point : Point) (left right : KDTreeN) (splitAxis : Nat) : KDTreeN
deriving DecidableEq, Repr

/-- `KDTree` (kdtree.go lines 4-6): a root pointer. -/
structure KDTree where
  root : KDTreeN
deriving DecidableEq, Repr

/-- `distanceSquared` (kdtree.go lines 147-151): squared Euclidean
distance.  Exact in `float64` for all coordinates the pipeline uses,
hence modelled as `Int`. -/
def distanceSquared (x1 y1 x2 y2 : Int) : Int :=
  let dx := x1 - x2
  let dy := y1 - y2
  dx * dx + dy * dy

/-- `buildKDTree` (kdtree.go lines 31-57): recursively sort by the
axis `depth % 2`, take the median element as the node, and recurse on
the two halves.  A single point becomes a leaf node. -/
def buildKDTree : List Point → Nat → KDTreeN
  | [], _ => .nil
  | [p], depth => .node p .nil .nil (depth % 2)
  | p :: q :: rest, depth =>
    let axis := depth % 2
    let sorted := sortPointsByAxis (p :: q :: rest) axis
    let median := (p :: q :: rest).length / 2
    .node (sorted.getD median pZero)
      (buildKDTree (sorted.take median) (depth + 1))
      (buildKDTree (sorted.drop (median + 1)) (depth + 1))
      axis
termination_by ps _ => ps.length
decreasing_by
  all_goals
    simp only [List.length_take, List.length_drop, sortPointsByAxis_length,
      List.length_cons]
    omega

/-- Final contents of the slice buffer `buildKDTree` operates on: the
build sorts its slice in place at every level, so the buffer ends up
as (recursively mutated left half) ++ median ++ (recursively mutated
right half).  Used to show that building genuinely reorders the buffer
it is given, which is why `NewKDTree` copies first. -/
def buildKDTreeBuffer : List Point → Nat → List Point
  | [], _ => []
  | [p], _ => [p]
  | p :: q :: rest, depth =>
    let axis := depth % 2
    let sorted := sortPointsByAxis (p :: q :: rest) axis
    let median := (p :: q :: rest).length / 2
    buildKDTreeBuffer (sorted.take median) (depth + 1)
      ++ sorted.getD median pZero
         :: buildKDTreeBuffer (sorted.drop (median + 1)) (depth + 1)
termination_by ps _ => ps.length
decreasing_by
  all_goals
    simp only [List.length_take, List.length_drop, sortPointsByAxis_length,
      List.length_cons]
    omega

/-- `NewKDTree` (kdtree.go lines 16-28).  The Go function first copies
the input slice (`pointsCopy`) and builds the tree from the copy, so
the caller's slice is untouched.  The model returns both the tree and
the contents of the caller's slice after the call: the build mutates
only `pointsCopy`, so the caller's slice is returned as given. -/
def NewKDTree (points : List Point) : KDTree × List Point :=
  let pointsCopy := points
  if points.isEmpty then (⟨.nil⟩, points)
  else (⟨buildKDTree pointsCopy 0⟩, points)

/-- In-order list of the points stored in a subtree. -/
def treePoints : KDTreeN → List Point
  | .nil => []
  | .node p l r _ => treePoints l ++ p :: treePoints r

/-- `findNearestHelper` (kdtree.go lines 106-144).  The mutable
`bestNode`/`bestDist` pair is threaded as explicit state; the search
visits the near child first and prunes the far child unless the
splitting plane is closer than the current best. -/
def findNearestHelper : KDTreeN → Int → Int → Point × Int → Point × Int
  | .nil, _, _, best => best
  | .node p l r ax, x, y, best =>
    let dist := distanceSquared x y p.x p.y
    let best1 := if dist < best.2 then (p, dist) else best
    let diff := if ax = 0 then x - p.x else y - p.y
    if diff < 0 then
      let b2 := findNearestHelper l x y best1
      if diff * diff < b2.2 then findNearestHelper r x y b2 else b2
    else
      let b2 := findNearestHelper r x y best1
      if diff * diff < b2.2 then findNearestHelper l x y b2 else b2

/-- `FindNearest` (kdtree.go lines 92-103): returns the `Index` field of
the nearest stored point; `0` when the tree is empty. -/
def FindNearest (tree : KDTree) (x y : Int) : Int :=
  match tree.root with
  | .nil => 0
  | .node p l r ax =>
    let best := findNearestHelper (.node p l r ax) x y
      (p, distanceSquared x y p.x p.y)
    best.1.index

/-- Loop of `findNearestPoint` (voronoi sampler file, lines 148-164):
linear scan with running minimum.  `minDist` starts at
`math.MaxFloat64`, modelled as `none`; every real squared distance is
strictly below it, so the `none` branch always updates. -/
def fnpAux (x y : Int) : List Point → Nat → Nat → Option Int → Nat
  | [], _, nearest, _ => nearest
  | p :: ps, i, nearest, minDist =>
    let dist := distanceSquared x y p.x p.y
    match minDist with
    | none => fnpAux x y ps (i + 1) i (some dist)
    | some d =>
      if dist < d then fnpAux x y ps (i + 1) i (some dist)
      else fnpAux x y ps (i + 1) nearest (some d)

/-- `findNearestPoint` (voronoi sampler file, lines 148-164):
brute-force linear scan over squared distances, returning the position
of the first point attaining the minimum (`0` on an empty list). -/
def findNearestPoint (x y : Int) (points : List Point) : Nat :=
  fnpAux x y points 0 0 none

/-- `colorDistanceSquared` (wasm/paintbynumbers.go lines 161-170):
squared distance of the 16-bit `RGBA()` channel values (`v * 257`),
alpha ignored.  Exact in `float64`, modelled as `Int`. -/
def colorDistanceSquared (c1 c2 : Color) : Int :=
  let dr := (c1.r : Int) * 257 - (c2.r : Int) * 257
  let dg := (c1.g : Int) * 257 - (c2.g : Int) * 257
  let db := (c1.b : Int) * 257 - (c2.b : Int) * 257
  dr * dr + dg * dg + db * db

/-- `colorsEqual` (wasm/paintbynumbers.go lines 173-177): equality of
all four 16-bit `RGBA()` channel values. -/
def colorsEqual (c1 c2 : Color) : Bool :=
  c1.r * 257 == c2.r * 257 && c1.g * 257 == c2.g * 257
    && c1.b * 257 == c2.b * 257 && c1.a * 257 == c2.a * 257

/-- Loop of `findNearestColor` (wasm/paintbynumbers.go lines 180-199):
linear scan with running minimum, `math.MaxFloat64` sentinel as `none`. -/
def fncAux (c : Color) : List Color → Nat → Nat → Option Int → Nat
  | [], _, nearest, _ => nearest
  | p :: ps, i, nearest, minDist =>
    let dist := colorDistanceSquared c p
    match minDist with
    | none => fncAux c ps (i + 1) i (some dist)
    | some d =>
      if dist < d then fncAux c ps (i + 1) i (some dist)
      else fncAux c ps (i + 1) nearest (some d)

/-- `findNearestColor` (wasm/paintbynumbers.go lines 180-199): position
of the first palette entry attaining the minimal squared RGB distance
(`0` on an empty palette). -/
def findNearestColor (c : Color) (palette : List Color) : Nat :=
  fncAux c palette 0 0 none

/-- `averageColor` (wasm/paintbynumbers.go lines 202-219): sum the
16-bit `RGBA()` channel values, divide by the count (`uint64`
truncating division), shift right by 8 and truncate to `uint8`. -/
def averageColor (colors : List Color) : Color :=
  let r := (colors.map (fun c => c.r * 257)).sum
  let g := (colors.map (fun c => c.g * 257)).sum
  let b := (colors.map (fun c => c.b * 257)).sum
  let a := (colors.map (fun c => c.a * 257)).sum
  let n := colors.length
  ⟨((r / n) >>> 8) % 256, ((g / n) >>> 8) % 256,
   ((b / n) >>> 8) % 256, ((a / n) >>> 8) % 256⟩

/-- `quantizePoints` (wasm/paintbynumbers.go lines 222-234): replace
each point's color with its nearest palette entry, keeping coordinates
and index.  `none` models the Go panic of `palette[nearest]` on an
empty palette. -/
def quantizePoints (points : List Point) (palette : List Color) :
    Option (List Point) :=
  points.mapM (fun p =>
    let nearest := findNearestColor p.color palette
    if nearest < palette.length then
      some { x := p.x, y := p.y, color := palette.getD nearest cZero,
             index := p.index }
    else none)

/-- Inner loop of the k-means++ initialization (wasm/paintbynumbers.go
lines 106-116): minimal squared distance from `c` to the chosen
centroids, `math.MaxFloat64` sentinel as `none`.  Every call site has
a non-empty centroid list, so the sentinel never survives. -/
def minDistToCentroids (c : Color) (centroids : List Color) : Option Int :=
  centroids.foldl (fun m ctr =>
    let d := colorDistanceSquared c ctr
    match m with
    | none => some d
    | some m0 => if d < m0 then some d else some m0) none

/-- Selection loop of the k-means++ initialization
(wasm/paintbynumbers.go lines 119-127): first index whose cumulative
distance reaches `target`; `none` when the scan falls through without
selecting (the Go `for` loop would then spin forever, never growing
`centroids`). -/
def pickIndexAux (target : ℚ) : List Int → Nat → Int → Option Nat
  | [], _, _ => none
  | d :: ds, i, cumulative =>
    if target ≤ ((cumulative + d : Int) : ℚ) then some i
    else pickIndexAux target ds (i + 1) (cumulative + d)

/-- `pickIndex distances target` models `cumulative += dist; if
cumulative >= target`. -/
def pickIndex (dists : List Int) (target : ℚ) : Option Nat :=
  pickIndexAux target dists 0 0

/-- Centroid-selection loop of `kMeansClustering`
(wasm/paintbynumbers.go lines 102-128): while fewer than `k` centroids
have been chosen, pick the next with probability proportional to the
squared distance to the nearest chosen centroid.  `rng round` models
the `rand.Float64()` draw of that round.  The loop adds one centroid
per round, so `fuel = k` rounds suffice; `none` models divergence of
the Go loop when no index is selected. -/
def kmeansInitLoop (colors : List Color) (rng : Nat → ℚ) :
    Nat → Nat → List Color → Nat → Option (List Color)
  | 0, k, centroids, _ =>
    if centroids.length < k then none else some centroids
  | fuel + 1, k, centroids, round =>
    if centroids.length < k then
      let dists := colors.map (fun c => (minDistToCentroids c centroids).getD 0)
      let totalDist : Int := dists.sum
      let target := rng round * (totalDist : ℚ)
      match pickIndex dists target with
      | none => none
      | some i =>
        kmeansInitLoop colors rng fuel k
          (centroids ++ [colors.getD i cZero]) (round + 1)
    else some centroids

/-- Assignment step of a k-means iteration (wasm/paintbynumbers.go
lines 133-137): distribute every color into the cluster of its nearest
centroid.  `none` models the Go panic `clusters[nearest]` when
`nearest` is outside the `k` allocated clusters (reachable when
`k = 0`). -/
def assignClusters (colors centroids : List Color) (k : Nat) :
    Option (List (List Color)) :=
  colors.foldl (fun acc c =>
    match acc with
    | none => none
    | some clusters =>
      let nearest := findNearestColor c centroids
      if nearest < clusters.length then
        some (clusters.set nearest (clusters.getD nearest [] ++ [c]))
      else none)
    (some (List.replicate k []))

/-- Update step of a k-means iteration (wasm/paintbynumbers.go lines
140-149): each non-empty cluster moves its centroid to the cluster
average; empty clusters keep their centroid; the boolean records
whether any centroid changed.  `none` models the Go panic
`centroids[i]` when there are more clusters than centroids. -/
def updateCentroidsAux : List (List Color) → List Color →
    Option (List Color × Bool)
  | [], cs => some (cs, false)
  | _ :: _, [] => none
  | cluster :: rest, ctr :: cs =>
    match updateCentroidsAux rest cs with
    | none => none
    | some (cs2, changed) =>
      if cluster.length > 0 then
        let newCentroid := averageColor cluster
        if colorsEqual ctr newCentroid then some (ctr :: cs2, changed)
        else some (newCentroid :: cs2, true)
      else some (ctr :: cs2, changed)

/-- Iteration loop of `kMeansClustering` (wasm/paintbynumbers.go lines
131-155): at most 15 rounds of assign/update, stopping early when no
centroid moves. -/
def kmeansIterate (colors : List Color) (k : Nat) :
    List Color → Nat → Option (List Color)
  | centroids, 0 => some centroids
  | centroids, iters + 1 =>
    match assignClusters colors centroids k with
    | none => none
    | some clusters =>
      match updateCentroidsAux clusters centroids with
      | none => none
      | some (newCentroids, changed) =>
        if changed then kmeansIterate colors k newCentroids iters
        else some newCentroids

/-- `kMeansClustering` (wasm/paintbynumbers.go lines 86-158).  An empty
sample yields the neutral gray; `k ≥ sample size` returns the sample
unclustered; otherwise k-means++ initialization (`firstIdx` models
`rand.Intn(len(colors))`, `rng` the `rand.Float64()` draws) followed
by at most 15 assign/update iterations. -/
def kMeansClustering (colors : List Color) (k : Nat) (firstIdx : Nat)
    (rng : Nat → ℚ) : Option (List Color) :=
  if colors.length = 0 then some [⟨128, 128, 128, 255⟩]
  else if colors.length ≤ k then some colors
  else
    let centroids := [colors.getD firstIdx cZero]
    match kmeansInitLoop colors rng k k centroids 0 with
    | none => none
    | some centroids => kmeansIterate colors k centroids 15

/-- An `*image.RGBA` with rectangle
`Rect(minX, minY, minX+width, minY+height)` and row-major 8-bit RGBA
pixels. -/
structure RGBAImage where
  minX : Int
  minY : Int
  width : Nat
  height : Nat
  pixels : List Color
deriving DecidableEq, Repr

/-- Whether `(x, y)` lies in the image rectangle (`image.Point.In`). -/
def RGBAImage.inBounds (img : RGBAImage) (x y : Int) : Bool :=
  img.minX ≤ x && x < img.minX + img.width
    && img.minY ≤ y && y < img.minY + img.height

/-- Row-major pixel offset of an in-bounds coordinate. -/
def RGBAImage.pixIdx (img : RGBAImage) (x y : Int) : Nat :=
  (y - img.minY).toNat * img.width + (x - img.minX).toNat

/-- `image.RGBA.At`: the stored pixel in bounds, the zero color
outside. -/
def RGBAImage.atPix (img : RGBAImage) (x y : Int) : Color :=
  if img.inBounds x y then img.pixels.getD (img.pixIdx x y) cZero
  else cZero

/-- `image.RGBA.Set`: write the pixel in bounds, no-op outside. -/
def RGBAImage.setPix (img : RGBAImage) (x y : Int) (c : Color) : RGBAImage :=
  if img.inBounds x y then
    { img with pixels := img.pixels.set (img.pixIdx x y) c }
  else img

/-- Running sums of a weight list (the `sum += w; cumulative[i] = sum`
loop of `generateAdaptiveVoronoiPoints`). -/
def cumulativeFrom (s : ℚ) : List ℚ → List ℚ
  | [] => []
  | w :: ws => (s + w) :: cumulativeFrom (s + w) ws

/-- Loop of `binarySearch` (voronoi sampler file, lines 132-145):
classical lower-bound search on `[left, right]`. -/
def bsAux (arr : List ℚ) (value : ℚ) (left right : Nat) : Nat :=
  if _h : left < right then
    let mid := (left + right) / 2
    if arr.getD mid 0 < value then bsAux arr value (mid + 1) right
    else bsAux arr value left mid
  else left
termination_by right - left
decreasing_by all_goals omega

/-- `binarySearch` (voronoi sampler file, lines 132-145): smallest index
whose cumulative weight is `≥ value` (clamped to the last index; `0` on
an empty array). -/
def binarySearch (arr : List ℚ) (value : ℚ) : Nat :=
  bsAux arr value 0 (arr.length - 1)

/-- `generateAdaptiveVoronoiPoints` (voronoi sampler file, lines
28-85).  The Sobel edge map (`computeEdgeMap`, a floating-point
gradient field) is abstracted as the parameter `edgeMap` (one
non-negative weight per pixel index); `rng i` models the
`rand.Float64()` draw of the `i`-th point.  Per-pixel weight is
`1 + edgeMap * 10`; each draw locates a pixel by binary search over the
cumulative weights and becomes a seed with the image color there and
sequential index `i`. -/
def generateAdaptiveVoronoiPoints (img : RGBAImage) (numPoints : Nat)
    (edgeMap : Nat → ℚ) (rng : Nat → ℚ) : List Point :=
  let width := img.width
  let height := img.height
  let weights := (List.range (width * height)).map
    (fun idx => 1 + edgeMap idx * 10)
  let totalWeight := weights.sum
  let cumulative := cumulativeFrom 0 weights
  (List.range numPoints).map (fun i =>
    let target := rng i * totalWeight
    let idx := binarySearch cumulative target
    let x : Int := (idx % width : Nat) + img.minX
    let y : Int := (idx / width : Nat) + img.minY
    { x := x, y := y, color := img.atPix x y, index := (i : Int) })

/-- The offsets `-radius .. radius` scanned by the border loops. -/
def offsetRange (radius : Nat) : List Int :=
  (List.range (2 * radius + 1)).map (fun i => (i : Int) - radius)

/-- `isBorderPixelWithWidth` (wasm/wasm_helpers.go lines 105-139):
does any in-bounds neighbor within the disc of radius `(width+1)/2`
(center excluded) have a different nearest seed? -/
def isBorderPixelWithWidth (x y : Int) (img : RGBAImage)
    (points : List Point) (width : Nat) : Bool :=
  let current := findNearestPoint x y points
  let radius := (width + 1) / 2
  (offsetRange radius).any (fun dy =>
    (offsetRange radius).any (fun dx =>
      if dx = 0 && dy = 0 then false
      else if dx * dx + dy * dy > (radius : Int) * radius then false
      else
        let nx := x + dx
        let ny := y + dy
        if !img.inBounds nx ny then false
        else decide (findNearestPoint nx ny points ≠ current)))

/-- All in-rectangle coordinates in row-major scan order
(the `for y ... for x` loops). -/
def scanCoords (img : RGBAImage) : List (Int × Int) :=
  (List.range img.height).flatMap (fun ry =>
    (List.range img.width).map (fun rx =>
      ((rx : Int) + img.minX, (ry : Int) + img.minY)))

/-- `addVoronoiBordersWithWidth` (wasm/wasm_helpers.go lines 77-102):
width `0` returns the input image itself; otherwise copy the image
pixel by pixel into a fresh buffer and paint every border pixel pure
black. -/
def addVoronoiBordersWithWidth (img : RGBAImage) (points : List Point)
    (width : Nat) : RGBAImage :=
  if width = 0 then img
  else
    let base : RGBAImage :=
      ⟨img.minX, img.minY, img.width, img.height,
        List.replicate (img.width * img.height) cZero⟩
    let copied := (scanCoords img).foldl
      (fun res xy => res.setPix xy.1 xy.2 (img.atPix xy.1 xy.2)) base
    (scanCoords img).foldl
      (fun res xy =>
        if isBorderPixelWithWidth xy.1 xy.2 img points width then
          res.setPix xy.1 xy.2 ⟨0, 0, 0, 255⟩
        else res)
      copied

/-- The 5x7 bitmap glyphs of `digitBitmaps` (textdraw.go lines 10-101);
out-of-range digits have no glyph (`nil` in the Go map). -/
def digitBitmaps : Nat → List (List Bool)
  | 0 => [[false, true, true, true, false],
          [true, false, false, false, true],
          [true, false, false, true, true],
          [true, false, true, false, true],
          [true, true, false, false, true],
          [true, false, false, false, true],
          [false, true, true, true, false]]
  | 1 => [[false, false, true, false, false],
          [false, true, true, false, false],
          [false, false, true, false, false],
          [false, false, true, false, false],
          [false, false, true, false, false],
          [false, false, true, false, false],
          [false, true, true, true, false]]
  | 2 => [[false, true, true, true, false],
          [true, false, false, false, true],
          [false, false, false, false, true],
          [false, false, false, true, false],
          [false, false, true, false, false],
          [false, true, false, false, false],
          [true, true, true, true, true]]
  | 3 => [[false, true, true, true, false],
          [true, false, false, false, true],
          [false, false, false, false, true],
          [false, false, true, true, false],
          [false, false, false, false, true],
          [true, false, false, false, true],
          [false, true, true, true, false]]
  | 4 => [[false, false, false, true, false],
          [false, false, true, true, false],
          [false, true, false, true, false],
          [true, false, false, true, false],
          [true, true, true, true, true],
          [false, false, false, true, false],
          [false, false, false, true, false]]
  | 5 => [[true, true, true, true, true],
          [true, false, false, false, false],
          [true, true, true, true, false],
          [false, false, false, false, true],
          [false, false, false, false, true],
          [true, false, false, false, true],
          [false, true, true, true, false]]
  | 6 => [[false, false, true, true, false],
          [false, true, false, false, false],
          [true, false, false, false, false],
          [true, true, true, true, false],
          [true, false, false, false, true],
          [true, false, false, false, true],
          [false, true, true, true, false]]
  | 7 => [[true, true, true, true, true],
          [false, false, false, false, true],
          [false, false, false, true, false],
          [false, false, true, false, false],
          [false, true, false, false, false],
          [false, true, false, false, false],
          [false, true, false, false, false]]
  | 8 => [[false, true, true, true, false],
          [true, false, false, false, true],
          [true, false, false, false, true],
          [false, true, true, true, false],
          [true, false, false, false, true],
          [true, false, false, false, true],
          [false, true, true, true, false]]
  | 9 => [[false, true, true, true, false],
          [true, false, false, false, true],
          [true, false, false, false, true],
          [false, true, true, true, true],
          [false, false, false, false, true],
          [false, false, false, true, false],
          [false, true, true, false, false]]
  | _ => []

/-- `drawBitmap` (textdraw.go lines 237-250): stamp every `true` cell of
the bitmap that lands inside the image. -/
def drawBitmap (img : RGBAImage) (bitmap : List (List Bool))
    (startX startY : Int) (c : Color) : RGBAImage :=
  bitmap.enum.foldl (fun im yrow =>
    yrow.2.enum.foldl (fun im2 xp =>
      if xp.2 then
        let px := startX + (xp.1 : Int)
        let py := startY + (yrow.1 : Int)
        if im2.inBounds px py then im2.setPix px py c else im2
      else im2) im) img

/-- The eight outline displacements of `drawDigit` (dy outer loop,
dx inner, center skipped), as `(dx, dy)` pairs in loop order. -/
def outlineOffsets : List (Int × Int) :=
  [(-1, -1), (0, -1), (1, -1), (-1, 0), (1, 0), (-1, 1), (0, 1), (1, 1)]

/-- `drawDigit` (textdraw.go lines 206-234): glyph centered on
`(centerX, centerY)`, black outline first (eight displaced copies),
then the white glyph on top.  Digits outside `0..9` draw nothing. -/
def drawDigit (img : RGBAImage) (digit : Int) (centerX centerY : Int) :
    RGBAImage :=
  if digit < 0 ∨ digit > 9 then img
  else
    let bitmap := digitBitmaps digit.toNat
    if bitmap.isEmpty then img
    else
      let startX := centerX - 2
      let startY := centerY - 3
      let outlined := outlineOffsets.foldl
        (fun im d => drawBitmap im bitmap (startX + d.1) (startY + d.2)
          ⟨0, 0, 0, 255⟩)
        img
      drawBitmap outlined bitmap startX startY ⟨255, 255, 255, 255⟩

/-- `drawNumber` (textdraw.go lines 193-203): one digit at the center,
or two adjacent digits for numbers `≥ 10`. -/
def drawNumber (img : RGBAImage) (num : Int) (x y : Int) : RGBAImage :=
  if num ≥ 10 then
    let tens := num.tdiv 10
    let ones := num.tmod 10
    drawDigit (drawDigit img tens (x - 3) y) ones (x + 3) y
  else drawDigit img num x y

/-- `Region` (textdraw.go lines 104-109). -/
structure Region where
  colorIndex : Int
  pixels : List (Int × Int)
  centroid : Int × Int
  area : Int
deriving DecidableEq, Repr

/-- BFS loop of `floodFill` (textdraw.go lines 154-190): pop the queue
head; skip out-of-rectangle, already-visited, or differently-assigned
pixels; otherwise mark visited, record the pixel and enqueue the four
neighbors.  The Go loop runs until the queue empties; each pop either
consumes a queue entry without marking or marks a fresh pixel (adding
four entries), so it performs at most `1 + 5 * width * height` pops —
the `fuel` passed by `findRegions` covers every iteration. -/
def floodFillLoop (tree : KDTree) (img : RGBAImage) (colorIdx : Int) :
    Nat → List (Int × Int) → List Bool → List (Int × Int) →
    List Bool × List (Int × Int)
  | 0, _, visited, pixels => (visited, pixels)
  | _ + 1, [], visited, pixels => (visited, pixels)
  | fuel + 1, (px, py) :: rest, visited, pixels =>
    if !img.inBounds px py then
      floodFillLoop tree img colorIdx fuel rest visited pixels
    else
      let idx := img.pixIdx px py
      if visited.getD idx false then
        floodFillLoop tree img colorIdx fuel rest visited pixels
      else if FindNearest tree px py ≠ colorIdx then
        floodFillLoop tree img colorIdx fuel rest visited pixels
      else
        floodFillLoop tree img colorIdx fuel
          (rest ++ [(px - 1, py), (px + 1, py), (px, py - 1), (px, py + 1)])
          (visited.set idx true)
          (pixels ++ [(px, py)])

/-- `floodFill` (textdraw.go lines 154-190): the connected pixels of
one nearest-seed region, starting from `(startX, startY)`, together
with the updated visited array. -/
def floodFill (img : RGBAImage) (startX startY : Int) (colorIdx : Int)
    (visited : List Bool) (tree : KDTree) :
    List Bool × List (Int × Int) :=
  floodFillLoop tree img colorIdx (1 + 5 * (img.width * img.height))
    [(startX, startY)] visited []

/-- `findRegions` (textdraw.go lines 112-151): scan the rectangle in
row-major order; flood-fill each unvisited pixel from its nearest-seed
assignment; keep regions of at least 100 pixels, with their integer
centroid and area. -/
def findRegions (img : RGBAImage) (_points : List Point) (tree : KDTree) :
    List Region :=
  let init : List Bool × List Region :=
    (List.replicate (img.width * img.height) false, [])
  ((scanCoords img).foldl (fun st xy =>
    let (visited, regions) := st
    let (x, y) := xy
    if visited.getD (img.pixIdx x y) false then st
    else
      let colorIdx := FindNearest tree x y
      let (visited2, pixels) := floodFill img x y colorIdx visited tree
      if pixels.length ≥ 100 then
        let sumX := (pixels.map Prod.fst).sum
        let sumY := (pixels.map Prod.snd).sum
        (visited2, regions ++
          [{ colorIndex := colorIdx, pixels := pixels,
             centroid := (sumX.tdiv (pixels.length : Int),
                          sumY.tdiv (pixels.length : Int)),
             area := (pixels.length : Int) }])
      else (visited2, regions)) init).2

/-- The fresh copy `image.NewRGBA` + `draw.Draw` makes of an image
(textdraw.go lines 254-255): a buffer of the same rectangle holding the
source's pixel values. -/
def copyImage (img : RGBAImage) : RGBAImage :=
  let base : RGBAImage :=
    ⟨img.minX, img.minY, img.width, img.height,
      List.replicate (img.width * img.height) cZero⟩
  (scanCoords img).foldl
    (fun res xy => res.setPix xy.1 xy.2 (img.atPix xy.1 xy.2)) base

/-- `addRegionNumbers` (textdraw.go lines 253-268): copy the image and
stamp each found region's 1-based color number at its centroid. -/
def addRegionNumbers (img : RGBAImage) (points : List Point)
    (tree : KDTree) : RGBAImage :=
  let result := copyImage img
  let regions := findRegions img points tree
  regions.foldl (fun res region =>
    drawNumber res (region.colorIndex + 1)
      region.centroid.1 region.centroid.2) result

/-- The parameter validation of `processImage` (wasm/main.go lines
57-69): the first failing bound produces its error message, before any
decoding or pipeline work; `none` means all four parameters pass and
the pipeline is entered. -/
def processImageValidate (numPoints numColors lineWidth maxDimension : Int) :
    Option String :=
  if numPoints < 50 ∨ numPoints > 50000 then
    some "Points must be between 50 and 50000"
  else if numColors < 2 ∨ numColors > 64 then
    some "Colors must be between 2 and 64"
  else if lineWidth < 0 ∨ lineWidth > 5 then
    some "Line width must be between 0 and 5"
  else if maxDimension < 256 ∨ maxDimension > 4096 then
    some "Max dimension must be between 256 and 4096"
  else none

/-! ## Correctness of the insertion sort -/

/-- Sortedness of a point list on a split axis. -/
def sortedByAxis (axis : Nat) (l : List Point) : Prop :=
  l.Pairwise (fun p q => axisVal p axis ≤ axisVal q axis)

theorem insertByAxis_perm (axis : Nat) (p : Point) (l : List Point) :
    (insertByAxis axis p l).Perm (p :: l) := by
  induction l with
  | nil => exact List.Perm.refl _
  | cons q qs ih =>
    unfold insertByAxis
    by_cases h : axisVal q axis ≤ axisVal p axis
    · simp only [h, if_true]
      exact ((ih.cons q).trans (List.Perm.swap p q qs))
    · simp only [h, if_false]
      exact List.Perm.refl _

theorem insertByAxis_mem {axis : Nat} {p : Point} {l : List Point} {q : Point}
    (h : q ∈ insertByAxis axis p l) : q = p ∨ q ∈ l := by
  have := (insertByAxis_perm axis p l).mem_iff.mp h
  simpa using this

theorem insertByAxis_sorted (axis : Nat) (p : Point) (l : List Point)
    (h : sortedByAxis axis l) : sortedByAxis axis (insertByAxis axis p l) := by
  induction l with
  | nil => simp [insertByAxis, sortedByAxis]
  | cons q qs ih =>
    unfold sortedByAxis at h ⊢
    rw [List.pairwise_cons] at h
    unfold insertByAxis
    by_cases hle : axisVal q axis ≤ axisVal p axis
    · simp only [hle, if_true]
      rw [List.pairwise_cons]
      constructor
      · intro a ha
        rcases insertByAxis_mem ha with rfl | ha2
        · exact hle
        · exact h.1 a ha2
      · exact ih h.2
    · simp only [hle, if_false]
      rw [List.pairwise_cons]
      refine ⟨?_, List.pairwise_cons.mpr h⟩
      intro a ha
      have hpq : axisVal p axis ≤ axisVal q axis := le_of_not_le hle
      rcases ha with _ | ha2
      · exact hpq
      · exact hpq.trans (h.1 a (by assumption))

theorem sort_foldl_perm (axis : Nat) (ps : List Point) :
    ∀ acc : List Point,
      (ps.foldl (fun acc p => insertByAxis axis p acc) acc).Perm (ps ++ acc) := by
  induction ps with
  | nil => intro acc; simp
  | cons p ps ih =>
    intro acc
    simp only [List.foldl_cons, List.cons_append]
    exact (ih (insertByAxis axis p acc)).trans
      ((List.Perm.append_left ps (insertByAxis_perm axis p acc)).trans
        List.perm_middle)

theorem sortPointsByAxis_perm (ps : List Point) (axis : Nat) :
    (sortPointsByAxis ps axis).Perm ps := by
  unfold sortPointsByAxis
  simpa using sort_foldl_perm axis ps []

theorem sort_foldl_sorted (axis : Nat) (ps : List Point) :
    ∀ acc : List Point, sortedByAxis axis acc →
      sortedByAxis axis (ps.foldl (fun acc p => insertByAxis axis p acc) acc) := by
  induction ps with
  | nil => intro acc h; simpa using h
  | cons p ps ih =>
    intro acc h
    simp only [List.foldl_cons]
    exact ih _ (insertByAxis_sorted axis p acc h)

theorem sortPointsByAxis_sorted (ps : List Point) (axis : Nat) :
    sortedByAxis axis (sortPointsByAxis ps axis) := by
  unfold sortPointsByAxis
  exact sort_foldl_sorted axis ps [] (by simp [sortedByAxis])

theorem sorted_take_le (axis : Nat) (l : List Point) (m : Nat)
    (hs : sortedByAxis axis l) (hm : m < l.length) :
    ∀ q ∈ l.take m, axisVal q axis ≤ axisVal (l.getD m pZero) axis := by
  intro q hq
  have hdecomp : l.take m ++ l.drop m = l := List.take_append_drop m l
  have hdrop : l.drop m = l[m] :: l.drop (m + 1) := List.drop_eq_getElem_cons hm
  have hpw : List.Pairwise (fun p q => axisVal p axis ≤ axisVal q axis)
      (l.take m ++ l.drop m) := by rw [hdecomp]; exact hs
  rw [List.pairwise_append] at hpw
  have := hpw.2.2 q hq l[m] (by rw [hdrop]; exact List.mem_cons_self _ _)
  rwa [List.getD_eq_getElem l pZero hm]

theorem sorted_drop_ge (axis : Nat) (l : List Point) (m : Nat)
    (hs : sortedByAxis axis l) (hm : m < l.length) :
    ∀ q ∈ l.drop (m + 1), axisVal (l.getD m pZero) axis ≤ axisVal q axis := by
  intro q hq
  have hdrop : l.drop m = l[m] :: l.drop (m + 1) := List.drop_eq_getElem_cons hm
  have hpw : List.Pairwise (fun p q => axisVal p axis ≤ axisVal q axis)
      (l.drop m) := by
    have hdecomp : l.take m ++ l.drop m = l := List.take_append_drop m l
    have : List.Pairwise (fun p q => axisVal p axis ≤ axisVal q axis)
        (l.take m ++ l.drop m) := by rw [hdecomp]; exact hs
    exact (List.pairwise_append.mp this).2.1
  rw [hdrop, List.pairwise_cons] at hpw
  have := hpw.1 q hq
  rwa [List.getD_eq_getElem l pZero hm]

/-! ## The k-d tree build invariant -/

/-- The k-d tree structural invariant of the spec: at every node the
split axis is `depth % 2`, all points of the left subtree are `≤` the
node on the split axis, and all points of the right subtree are `≥`. -/
def KDInv : KDTreeN → Nat → Prop
  | .nil, _ => True
  | .node p l r ax, depth =>
    ax = depth % 2
    ∧ (∀ q ∈ treePoints l, axisVal q ax ≤ axisVal p ax)
    ∧ (∀ q ∈ treePoints r, axisVal p ax ≤ axisVal q ax)
    ∧ KDInv l (depth + 1) ∧ KDInv r (depth + 1)

/-- The depth-free part of the invariant, which is what the search
pruning argument uses. -/
def KDBounds : KDTreeN → Prop
  | .nil => True
  | .node p l r ax =>
    (∀ q ∈ treePoints l, axisVal q ax ≤ axisVal p ax)
    ∧ (∀ q ∈ treePoints r, axisVal p ax ≤ axisVal q ax)
    ∧ KDBounds l ∧ KDBounds r

theorem KDBounds_of_KDInv : ∀ (t : KDTreeN) (depth : Nat), KDInv t depth → KDBounds t
  | .nil, _, _ => trivial
  | .node _ l r _, depth, h =>
    ⟨h.2.1, h.2.2.1,
      KDBounds_of_KDInv l (depth + 1) h.2.2.2.1,
      KDBounds_of_KDInv r (depth + 1) h.2.2.2.2⟩

theorem treePoints_build_perm :
    ∀ (n : Nat) (ps : List Point) (depth : Nat), ps.length ≤ n →
      (treePoints (buildKDTree ps depth)).Perm ps := by
  intro n
  induction n with
  | zero =>
    intro ps depth h
    have : ps = [] := List.length_eq_zero.mp (Nat.le_zero.mp h)
    subst this
    simp [buildKDTree, treePoints]
  | succ n ih =>
    intro ps depth h
    match ps with
    | [] => simp [buildKDTree, treePoints]
    | [p] => simp [buildKDTree, treePoints]
    | p :: q :: rest =>
      rw [buildKDTree]
      have hlen : (sortPointsByAxis (p :: q :: rest) (depth % 2)).length
          = (p :: q :: rest).length := sortPointsByAxis_length _ _
      set sorted := sortPointsByAxis (p :: q :: rest) (depth % 2) with hsorted
      set median := (p :: q :: rest).length / 2 with hmedian
      have hmlt : median < sorted.length := by
        rw [hlen, hmedian]; simp only [List.length_cons]; omega
      have hA : (sorted.take median).length ≤ n := by
        simp only [List.length_take, hlen, hmedian] at *
        simp only [List.length_cons] at *
        omega
      have hB : (sorted.drop (median + 1)).length ≤ n := by
        simp only [List.length_drop, hlen, hmedian] at *
        simp only [List.length_cons] at *
        omega
      have ihl := ih (sorted.take median) (depth + 1) hA
      have ihr := ih (sorted.drop (median + 1)) (depth + 1) hB
      simp only [treePoints]
      have hx : sorted.getD median pZero = sorted[median] :=
        List.getD_eq_getElem sorted pZero hmlt
      have hassemble : sorted.take median
          ++ sorted.getD median pZero :: sorted.drop (median + 1) = sorted := by
        rw [hx, ← List.drop_eq_getElem_cons hmlt]
        exact List.take_append_drop median sorted
      refine ((ihl.append (ihr.cons (sorted.getD median pZero))).trans ?_)
      rw [hassemble]
      exact sortPointsByAxis_perm _ _

theorem buildKDTree_inv :
    ∀ (n : Nat) (ps : List Point) (depth : Nat), ps.length ≤ n →
      KDInv (buildKDTree ps depth) depth := by
  intro n
  induction n with
  | zero =>
    intro ps depth h
    have : ps = [] := List.length_eq_zero.mp (Nat.le_zero.mp h)
    subst this
    simp [buildKDTree, KDInv]
  | succ n ih =>
    intro ps depth h
    match ps with
    | [] => simp [buildKDTree, KDInv]
    | [p] => simp [buildKDTree, KDInv, treePoints]
    | p :: q :: rest =>
      rw [buildKDTree]
      have hlen : (sortPointsByAxis (p :: q :: rest) (depth % 2)).length
          = (p :: q :: rest).length := sortPointsByAxis_length _ _
      set sorted := sortPointsByAxis (p :: q :: rest) (depth % 2) with hsorted
      set median := (p :: q :: rest).length / 2 with hmedian
      have hmlt : median < sorted.length := by
        rw [hlen, hmedian]; simp only [List.length_cons]; omega
      have hA : (sorted.take median).length ≤ n := by
        simp only [List.length_take, hlen, hmedian] at *
        simp only [List.length_cons] at *
        omega
      have hB : (sorted.drop (median + 1)).length ≤ n := by
        simp only [List.length_drop, hlen, hmedian] at *
        simp only [List.length_cons] at *
        omega
      have hsortedpw : sortedByAxis (depth % 2) sorted :=
        sortPointsByAxis_sorted _ _
      refine ⟨rfl, ?_, ?_, ih _ _ hA, ih _ _ hB⟩
      · intro a ha
        have hmem : a ∈ sorted.take median :=
          (treePoints_build_perm n _ (depth + 1) hA).mem_iff.mp ha
        exact sorted_take_le (depth % 2) sorted median hsortedpw hmlt a hmem
      · intro a ha
        have hmem : a ∈ sorted.drop (median + 1) :=
          (treePoints_build_perm n _ (depth + 1) hB).mem_iff.mp ha
        exact sorted_drop_ge (depth % 2) sorted median hsortedpw hmlt a hmem

/-! ## Correctness of the nearest-neighbor search -/

theorem prune_bound_neg (x y : Int) (p q : Point) (ax : Nat)
    (h : axisVal p ax ≤ axisVal q ax)
    (hd : (if ax = 0 then x - p.x else y - p.y) < 0) :
    (if ax = 0 then x - p.x else y - p.y)
        * (if ax = 0 then x - p.x else y - p.y)
      ≤ distanceSquared x y q.x q.y := by
  by_cases hax : ax = 0 <;>
    simp only [axisVal, distanceSquared, hax, if_true, if_false] at * <;>
    nlinarith [sq_nonneg (y - q.y), sq_nonneg (x - q.x), sq_nonneg (x - p.x),
      sq_nonneg (y - p.y)]

theorem prune_bound_nonneg (x y : Int) (p q : Point) (ax : Nat)
    (h : axisVal q ax ≤ axisVal p ax)
    (hd : 0 ≤ (if ax = 0 then x - p.x else y - p.y)) :
    (if ax = 0 then x - p.x else y - p.y)
        * (if ax = 0 then x - p.x else y - p.y)
      ≤ distanceSquared x y q.x q.y := by
  by_cases hax : ax = 0 <;>
    simp only [axisVal, distanceSquared, hax, if_true, if_false] at * <;>
    nlinarith [sq_nonneg (y - q.y), sq_nonneg (x - q.x), sq_nonneg (x - p.x),
      sq_nonneg (y - p.y)]

theorem findNearestHelper_spec (x y : Int) :
    ∀ (t : KDTreeN), KDBounds t → ∀ (best : Point × Int),
      best.2 = distanceSquared x y best.1.x best.1.y →
      ((findNearestHelper t x y best).2
          = distanceSquared x y (findNearestHelper t x y best).1.x
              (findNearestHelper t x y best).1.y)
      ∧ (findNearestHelper t x y best).2 ≤ best.2
      ∧ ((findNearestHelper t x y best).1 = best.1
          ∨ (findNearestHelper t x y best).1 ∈ treePoints t)
      ∧ ∀ q ∈ treePoints t,
          (findNearestHelper t x y best).2 ≤ distanceSquared x y q.x q.y := by
  intro t
  induction t with
  | nil =>
    intro _ best hbd
    refine ⟨hbd, le_refl _, Or.inl rfl, ?_⟩
    intro q hq
    simp [treePoints] at hq
  | node p l r ax ihl ihr =>
    intro hb best hbd
    rw [KDBounds] at hb
    obtain ⟨hbl, hbr, hkl, hkr⟩ := hb
    have hstep : findNearestHelper (.node p l r ax) x y best
        = (let dist := distanceSquared x y p.x p.y
           let best1 := if dist < best.2 then (p, dist) else best
           let diff := if ax = 0 then x - p.x else y - p.y
           if diff < 0 then
             let b2 := findNearestHelper l x y best1
             if diff * diff < b2.2 then findNearestHelper r x y b2 else b2
           else
             let b2 := findNearestHelper r x y best1
             if diff * diff < b2.2 then findNearestHelper l x y b2 else b2) :=
      rfl
    set best1 := if distanceSquared x y p.x p.y < best.2 then
        (p, distanceSquared x y p.x p.y) else best with hb1def
    have hb1 : best1.2 = distanceSquared x y best1.1.x best1.1.y
        ∧ best1.2 ≤ best.2 ∧ (best1.1 = best.1 ∨ best1.1 = p)
        ∧ best1.2 ≤ distanceSquared x y p.x p.y := by
      rw [hb1def]
      by_cases hc : distanceSquared x y p.x p.y < best.2
      · rw [if_pos hc]
        exact ⟨rfl, le_of_lt hc, Or.inr rfl, le_refl _⟩
      · rw [if_neg hc]
        exact ⟨hbd, le_refl _, Or.inl rfl, le_of_not_lt hc⟩
    by_cases hd : (if ax = 0 then x - p.x else y - p.y) < 0
    · -- near = left, far = right
      have hres : findNearestHelper (.node p l r ax) x y best
          = (if (if ax = 0 then x - p.x else y - p.y)
                * (if ax = 0 then x - p.x else y - p.y)
                < (findNearestHelper l x y best1).2
             then findNearestHelper r x y (findNearestHelper l x y best1)
             else findNearestHelper l x y best1) := by
        rw [hstep]
        simp only [hd, if_true, hb1def]
      obtain ⟨e2, le2, mem2, min2⟩ := ihl hkl best1 hb1.1
      set b2 := findNearestHelper l x y best1 with hb2def
      by_cases hp : (if ax = 0 then x - p.x else y - p.y)
          * (if ax = 0 then x - p.x else y - p.y) < b2.2
      · rw [hres]
        simp only [hp, if_true]
        obtain ⟨e3, le3, mem3, min3⟩ := ihr hkr b2 e2
        refine ⟨e3, le3.trans (le2.trans hb1.2.1), ?_, ?_⟩
        · rcases mem3 with h3 | h3
          · rw [h3]
            rcases mem2 with h2 | h2
            · rw [h2]
              rcases hb1.2.2.1 with h1 | h1
              · exact Or.inl h1
              · refine Or.inr ?_
                rw [h1, treePoints]
                exact List.mem_append_right _ (List.mem_cons_self _ _)
            · refine Or.inr ?_
              rw [treePoints]
              exact List.mem_append_left _ h2
          · refine Or.inr ?_
            rw [treePoints]
            exact List.mem_append_right _ (List.mem_cons_of_mem _ h3)
        · intro q hq
          rw [treePoints] at hq
          rcases List.mem_append.mp hq with hql | hqpr
          · exact le3.trans (min2 q hql)
          · rcases List.mem_cons.mp hqpr with rfl | hqr
            · exact le3.trans (le2.trans hb1.2.2.2)
            · exact min3 q hqr
      · rw [hres]
        simp only [hp, if_false]
        refine ⟨e2, le2.trans hb1.2.1, ?_, ?_⟩
        · rcases mem2 with h2 | h2
          · rw [h2]
            rcases hb1.2.2.1 with h1 | h1
            · exact Or.inl h1
            · refine Or.inr ?_
              rw [h1, treePoints]
              exact List.mem_append_right _ (List.mem_cons_self _ _)
          · refine Or.inr ?_
            rw [treePoints]
            exact List.mem_append_left _ h2
        · intro q hq
          rw [treePoints] at hq
          rcases List.mem_append.mp hq with hql | hqpr
          · exact min2 q hql
          · rcases List.mem_cons.mp hqpr with rfl | hqr
            · exact le2.trans hb1.2.2.2
            · -- pruned far (right) subtree: the splitting plane bound
              have hfar := prune_bound_neg x y p q ax (hbr q hqr) hd
              exact (le_of_not_lt hp).trans hfar
    · -- near = right, far = left
      have hres : findNearestHelper (.node p l r ax) x y best
          = (if (if ax = 0 then x - p.x else y - p.y)
                * (if ax = 0 then x - p.x else y - p.y)
                < (findNearestHelper r x y best1).2
             then findNearestHelper l x y (findNearestHelper r x y best1)
             else findNearestHelper r x y best1) := by
        rw [hstep]
        simp only [hd, if_false, hb1def]
      obtain ⟨e2, le2, mem2, min2⟩ := ihr hkr best1 hb1.1
      set b2 := findNearestHelper r x y best1 with hb2def
      by_cases hp : (if ax = 0 then x - p.x else y - p.y)
          * (if ax = 0 then x - p.x else y - p.y) < b2.2
      · rw [hres]
        simp only [hp, if_true]
        obtain ⟨e3, le3, mem3, min3⟩ := ihl hkl b2 e2
        refine ⟨e3, le3.trans (le2.trans hb1.2.1), ?_, ?_⟩
        · rcases mem3 with h3 | h3
          · rw [h3]
            rcases mem2 with h2 | h2
            · rw [h2]
              rcases hb1.2.2.1 with h1 | h1
              · exact Or.inl h1
              · refine Or.inr ?_
                rw [h1, treePoints]
                exact List.mem_append_right _ (List.mem_cons_self _ _)
            · refine Or.inr ?_
              rw [treePoints]
              exact List.mem_append_right _ (List.mem_cons_of_mem _ h2)
          · refine Or.inr ?_
            rw [treePoints]
            exact List.mem_append_left _ h3
        · intro q hq
          rw [treePoints] at hq
          rcases List.mem_append.mp hq with hql | hqpr
          · exact min3 q hql
          · rcases List.mem_cons.mp hqpr with rfl | hqr
            · exact le3.trans (le2.trans hb1.2.2.2)
            · exact le3.trans (min2 q hqr)
      · rw [hres]
        simp only [hp, if_false]
        refine ⟨e2, le2.trans hb1.2.1, ?_, ?_⟩
        · rcases mem2 with h2 | h2
          · rw [h2]
            rcases hb1.2.2.1 with h1 | h1
            · exact Or.inl h1
            · refine Or.inr ?_
              rw [h1, treePoints]
              exact List.mem_append_right _ (List.mem_cons_self _ _)
          · refine Or.inr ?_
            rw [treePoints]
            exact List.mem_append_right _ (List.mem_cons_of_mem _ h2)
        · intro q hq
          rw [treePoints] at hq
          rcases List.mem_append.mp hq with hql | hqpr
          · -- pruned far (left) subtree
            have hfar := prune_bound_nonneg x y p q ax (hbl q hql)
              (le_of_not_lt hd)
            exact (le_of_not_lt hp).trans hfar
          · rcases List.mem_cons.mp hqpr with rfl | hqr
            · exact le2.trans hb1.2.2.2
            · exact min2 q hqr

theorem findNearest_min (ps : List Point) (hne : ps ≠ []) (x y : Int) :
    ∃ p ∈ ps, FindNearest (NewKDTree ps).1 x y = p.index
      ∧ ∀ q ∈ ps, distanceSquared x y p.x p.y
          ≤ distanceSquared x y q.x q.y := by
  have hroot : (NewKDTree ps).1 = ⟨buildKDTree ps 0⟩ := by
    unfold NewKDTree
    cases ps with
    | nil => exact absurd rfl hne
    | cons a l => rfl
  have hperm : (treePoints (buildKDTree ps 0)).Perm ps :=
    treePoints_build_perm ps.length ps 0 (le_refl _)
  have hbounds : KDBounds (buildKDTree ps 0) :=
    KDBounds_of_KDInv _ 0 (buildKDTree_inv ps.length ps 0 (le_refl _))
  rw [hroot]
  cases hbuild : buildKDTree ps 0 with
  | nil =>
    rw [hbuild] at hperm
    simp only [treePoints] at hperm
    exact absurd hperm.symm.eq_nil hne
  | node p l r ax =>
    rw [hbuild] at hperm hbounds
    have hspec := findNearestHelper_spec x y (.node p l r ax) hbounds
      (p, distanceSquared x y p.x p.y) rfl
    obtain ⟨e, _, mem, hmin⟩ := hspec
    set res := findNearestHelper (.node p l r ax) x y
      (p, distanceSquared x y p.x p.y) with hres
    have hmemTree : res.1 ∈ treePoints (.node p l r ax) := by
      rcases mem with h1 | h1
    -- the initial best is the root point, which is itself stored in the tree
      · rw [h1, treePoints]
        exact List.mem_append_right _ (List.mem_cons_self _ _)
      · exact h1
    refine ⟨res.1, hperm.mem_iff.mp hmemTree, ?_, ?_⟩
    · rfl
    · intro q hq
      have hqt : q ∈ treePoints (.node p l r ax) := hperm.mem_iff.mpr hq
      have := hmin q hqt
      rw [← e]
      exact this

/-! ## The linear scans return the first index attaining the minimum -/

theorem fnpAux_spec (x y : Int) :
    ∀ (ps : List Point) (i nearest : Nat) (d : Int),
      (fnpAux x y ps i nearest (some d) = nearest
        ∧ ∀ k, k < ps.length →
            d ≤ distanceSquared x y (ps.getD k pZero).x (ps.getD k pZero).y)
      ∨ (∃ k, k < ps.length ∧ fnpAux x y ps i nearest (some d) = i + k
          ∧ distanceSquared x y (ps.getD k pZero).x (ps.getD k pZero).y < d
          ∧ (∀ j, j < ps.length →
              distanceSquared x y (ps.getD k pZero).x (ps.getD k pZero).y
                ≤ distanceSquared x y (ps.getD j pZero).x (ps.getD j pZero).y)
          ∧ (∀ j, j < k →
              distanceSquared x y (ps.getD k pZero).x (ps.getD k pZero).y
                < distanceSquared x y (ps.getD j pZero).x (ps.getD j pZero).y)) := by
  intro ps
  induction ps with
  | nil =>
    intro i nearest d
    left
    constructor
    · rfl
    · intro k hk; simp at hk
  | cons p ps ih =>
    intro i nearest d
    by_cases hlt : distanceSquared x y p.x p.y < d
    · have hstep : fnpAux x y (p :: ps) i nearest (some d)
          = fnpAux x y ps (i + 1) i (some (distanceSquared x y p.x p.y)) := by
        simp [fnpAux, hlt]
      rcases ih (i + 1) i (distanceSquared x y p.x p.y) with ⟨hres, hall⟩ |
        ⟨k, hk, hres, hltk, hmin, hstrict⟩
      · right
        refine ⟨0, by simp, ?_, ?_, ?_, ?_⟩
        · rw [hstep, hres]; omega
        · simpa using hlt
        · intro j hj
          cases j with
          | zero => exact le_refl _
          | succ j' =>
            simp only [List.getD_cons_succ, List.getD_cons_zero]
            exact hall j' (by simpa using hj)
        · intro j hj; omega
      · right
        refine ⟨k + 1, by simpa using hk, ?_, ?_, ?_, ?_⟩
        · rw [hstep, hres]; omega
        · simp only [List.getD_cons_succ]
          exact hltk.trans hlt
        · intro j hj
          cases j with
          | zero =>
            simp only [List.getD_cons_succ, List.getD_cons_zero]
            exact le_of_lt hltk
          | succ j' =>
            simp only [List.getD_cons_succ]
            exact hmin j' (by simpa using hj)
        · intro j hj
          cases j with
          | zero =>
            simp only [List.getD_cons_succ, List.getD_cons_zero]
            exact hltk
          | succ j' =>
            simp only [List.getD_cons_succ]
            exact hstrict j' (by omega)
    · have hstep : fnpAux x y (p :: ps) i nearest (some d)
          = fnpAux x y ps (i + 1) nearest (some d) := by
        simp [fnpAux, hlt]
      rcases ih (i + 1) nearest d with ⟨hres, hall⟩ |
        ⟨k, hk, hres, hltk, hmin, hstrict⟩
      · left
        refine ⟨by rw [hstep, hres], ?_⟩
        intro k hk
        cases k with
        | zero =>
          simp only [List.getD_cons_zero]
          exact le_of_not_lt hlt
        | succ k' => exact hall k' (by simpa using hk)
      · right
        refine ⟨k + 1, by simpa using hk, ?_, ?_, ?_, ?_⟩
        · rw [hstep, hres]; omega
        · simpa only [List.getD_cons_succ] using hltk
        · intro j hj
          cases j with
          | zero =>
            simp only [List.getD_cons_succ, List.getD_cons_zero]
            exact le_of_lt (lt_of_lt_of_le hltk (le_of_not_lt hlt))
          | succ j' =>
            simp only [List.getD_cons_succ]
            exact hmin j' (by simpa using hj)
        · intro j hj
          cases j with
          | zero =>
            simp only [List.getD_cons_succ, List.getD_cons_zero]
            exact lt_of_lt_of_le hltk (le_of_not_lt hlt)
          | succ j' =>
            simp only [List.getD_cons_succ]
            exact hstrict j' (by omega)

theorem findNearestPoint_spec (x y : Int) (ps : List Point) (hne : ps ≠ []) :
    findNearestPoint x y ps < ps.length
    ∧ (∀ j, j < ps.length →
        distanceSquared x y (ps.getD (findNearestPoint x y ps) pZero).x
            (ps.getD (findNearestPoint x y ps) pZero).y
          ≤ distanceSquared x y (ps.getD j pZero).x (ps.getD j pZero).y)
    ∧ (∀ j, j < findNearestPoint x y ps →
        distanceSquared x y (ps.getD (findNearestPoint x y ps) pZero).x
            (ps.getD (findNearestPoint x y ps) pZero).y
          < distanceSquared x y (ps.getD j pZero).x (ps.getD j pZero).y) := by
  cases ps with
  | nil => exact absurd rfl hne
  | cons p ps =>
    have hstep : findNearestPoint x y (p :: ps)
        = fnpAux x y ps 1 0 (some (distanceSquared x y p.x p.y)) := rfl
    rcases fnpAux_spec x y ps 1 0 (distanceSquared x y p.x p.y) with
      ⟨hres, hall⟩ | ⟨k, hk, hres, hltk, hmin, hstrict⟩
    · rw [hstep, hres]
      refine ⟨by simp, ?_, ?_⟩
      · intro j hj
        cases j with
        | zero => exact le_refl _
        | succ j' =>
          simp only [List.getD_cons_succ, List.getD_cons_zero]
          exact hall j' (by simpa using hj)
      · intro j hj; omega
    · have hik : (1 : Nat) + k = k + 1 := Nat.add_comm 1 k
      rw [hstep, hres, hik]
      refine ⟨by simp; omega, ?_, ?_⟩
      · intro j hj
        cases j with
        | zero =>
          simp only [List.getD_cons_succ, List.getD_cons_zero]
          exact le_of_lt hltk
        | succ j' =>
          simp only [List.getD_cons_succ]
          exact hmin j' (by simpa using hj)
      · intro j hj
        cases j with
        | zero =>
          simp only [List.getD_cons_succ, List.getD_cons_zero]
          exact hltk
        | succ j' =>
          simp only [List.getD_cons_succ]
          exact hstrict j' (by omega)

/-! ## Claims C1, C8, C9, C10 -/

/-- C1: for every spatial index built from a non-empty seed list and
every integer query point `(x, y)`, `FindNearest` returns the `index`
of a seed whose squared Euclidean distance to `(x, y)` equals the
minimum squared distance over all seeds — it agrees with the
brute-force linear scan `findNearestPoint` up to tie-break (the
returned seed's distance equals the brute-force winner's distance),
and any tie winner is still a minimal-distance seed. -/
theorem C1_findNearest_minimal (ps : List Point) (hne : ps ≠ [])
    (x y : Int) :
    ∃ p ∈ ps, FindNearest (NewKDTree ps).1 x y = p.index
      ∧ (∀ q ∈ ps, distanceSquared x y p.x p.y
          ≤ distanceSquared x y q.x q.y)
      ∧ distanceSquared x y p.x p.y
          = distanceSquared x y
              (ps.getD (findNearestPoint x y ps) pZero).x
              (ps.getD (findNearestPoint x y ps) pZero).y := by
  obtain ⟨p, hp, heq, hmin⟩ := findNearest_min ps hne x y
  obtain ⟨hlt, hbfmin, _⟩ := findNearestPoint_spec x y ps hne
  refine ⟨p, hp, heq, hmin, ?_⟩
  have hbfmem : ps.getD (findNearestPoint x y ps) pZero ∈ ps := by
    rw [List.getD_eq_getElem ps pZero hlt]
    exact List.getElem_mem hlt
  have h1 : distanceSquared x y p.x p.y
      ≤ distanceSquared x y (ps.getD (findNearestPoint x y ps) pZero).x
          (ps.getD (findNearestPoint x y ps) pZero).y :=
    hmin _ hbfmem
  have h2 : distanceSquared x y (ps.getD (findNearestPoint x y ps) pZero).x
      (ps.getD (findNearestPoint x y ps) pZero).y
      ≤ distanceSquared x y p.x p.y := by
    obtain ⟨j, hj, hjp⟩ := List.mem_iff_getElem.mp hp
    have := hbfmin j hj
    rwa [List.getD_eq_getElem ps pZero hj, hjp] at this
  exact le_antisymm h1 h2

/-- Witness for C1 at a concrete seed list and query point. -/
theorem C1_findNearest_minimal_witness :
    ∃ p ∈ [(⟨3, 4, cZero, 5⟩ : Point)],
      FindNearest (NewKDTree [(⟨3, 4, cZero, 5⟩ : Point)]).1 0 0 = p.index
      ∧ (∀ q ∈ [(⟨3, 4, cZero, 5⟩ : Point)],
          distanceSquared 0 0 p.x p.y ≤ distanceSquared 0 0 q.x q.y)
      ∧ distanceSquared 0 0 p.x p.y
          = distanceSquared 0 0
              ([(⟨3, 4, cZero, 5⟩ : Point)].getD
                (findNearestPoint 0 0 [(⟨3, 4, cZero, 5⟩ : Point)]) pZero).x
              ([(⟨3, 4, cZero, 5⟩ : Point)].getD
                (findNearestPoint 0 0 [(⟨3, 4, cZero, 5⟩ : Point)]) pZero).y :=
  C1_findNearest_minimal [⟨3, 4, cZero, 5⟩] (by decide) 0 0

/-- C8: every k-d tree built by `NewKDTree` satisfies the structural
invariant: at every node all seeds of the left subtree are `≤` the
node's coordinate on the split axis, all seeds of the right subtree
are `≥` it, and the split axis alternates with depth (x at even depth,
y at odd depth, i.e. axis = depth mod 2 starting from the root at
depth 0). -/
theorem C8_build_invariant (ps : List Point) :
    KDInv ((NewKDTree ps).1).root 0 := by
  unfold NewKDTree
  by_cases h : ps.isEmpty = true
  · rw [if_pos h]
    trivial
  · rw [if_neg h]
    exact buildKDTree_inv ps.length ps 0 (le_refl _)

/-- C9: on a tree built from a non-empty seed list whose indices all
lie in `0 .. N-1` (`N` the list length), `FindNearest` returns an
integer in `0 .. N-1` for every query point, so the rasterizer's
lookup `points[nearestIdx]` is in bounds. -/
theorem C9_findNearest_in_range (ps : List Point) (hne : ps ≠ [])
    (hidx : ∀ p ∈ ps, 0 ≤ p.index ∧ p.index < (ps.length : Int))
    (x y : Int) :
    0 ≤ FindNearest (NewKDTree ps).1 x y
      ∧ FindNearest (NewKDTree ps).1 x y < (ps.length : Int) := by
  obtain ⟨p, hp, heq, _⟩ := findNearest_min ps hne x y
  rw [heq]
  exact hidx p hp

/-- Witness for C9 at a concrete seed list and query point. -/
theorem C9_findNearest_in_range_witness :
    0 ≤ FindNearest (NewKDTree [(⟨0, 0, cZero, 0⟩ : Point)]).1 1 2
      ∧ FindNearest (NewKDTree [(⟨0, 0, cZero, 0⟩ : Point)]).1 1 2
          < (([(⟨0, 0, cZero, 0⟩ : Point)].length : Nat) : Int) :=
  C9_findNearest_in_range [⟨0, 0, cZero, 0⟩] (by decide) (by decide) 1 2

/-- C10: `NewKDTree` never mutates its argument — the caller's slice
after the call (second component of the model) is exactly the input —
even though the build reorders the buffer it works on in place
(witnessed by `buildKDTreeBuffer` changing a concrete two-point
buffer); the build operates on a copy. -/
theorem C10_newKDTree_preserves_input :
    (∀ ps : List Point, (NewKDTree ps).2 = ps)
    ∧ buildKDTreeBuffer [⟨2, 0, cZero, 0⟩, ⟨1, 0, cZero, 1⟩] 0
        ≠ [⟨2, 0, cZero, 0⟩, ⟨1, 0, cZero, 1⟩] := by
  constructor
  · intro ps
    unfold NewKDTree
    by_cases h : ps.isEmpty = true
    · rw [if_pos h]
    · rw [if_neg h]
  · rw [buildKDTreeBuffer]
    simp [sortPointsByAxis, insertByAxis, axisVal, buildKDTreeBuffer, cZero]

/-! ## Claim C2 -/

/-- C2 counterexample: the claim says the entry point accepts every
point count N in 1..50,000, but `processImage` rejects `N = 1`
(with palette size, border width and max dimension all well within
bounds), so the claim as stated is false. -/
theorem C2_counterexample_n1_rejected :
    processImageValidate 1 12 0 1024
      = some "Points must be between 50 and 50000" := by rfl

/-- C2 (amended): the entry point accepts point count N exactly for N
in 50..50,000 (not 1..50,000), and rejects N, palette size K
(bounds 2..64), border width (bounds 0..5) and max dimension (bounds
256..4096) values outside their bounds before any pipeline work
begins, returning a descriptive message naming the violated bound. -/
theorem C2_validation_bounds (n k w d : Int) :
    (processImageValidate n k w d = none ↔
      (50 ≤ n ∧ n ≤ 50000 ∧ 2 ≤ k ∧ k ≤ 64 ∧ 0 ≤ w ∧ w ≤ 5
        ∧ 256 ≤ d ∧ d ≤ 4096))
    ∧ ((n < 50 ∨ n > 50000) →
        processImageValidate n k w d
          = some "Points must be between 50 and 50000")
    ∧ (50 ≤ n → n ≤ 50000 → (k < 2 ∨ k > 64) →
        processImageValidate n k w d
          = some "Colors must be between 2 and 64")
    ∧ (50 ≤ n → n ≤ 50000 → 2 ≤ k → k ≤ 64 → (w < 0 ∨ w > 5) →
        processImageValidate n k w d
          = some "Line width must be between 0 and 5")
    ∧ (50 ≤ n → n ≤ 50000 → 2 ≤ k → k ≤ 64 → 0 ≤ w → w ≤ 5 →
        (d < 256 ∨ d > 4096) →
        processImageValidate n k w d
          = some "Max dimension must be between 256 and 4096") := by
  unfold processImageValidate
  refine ⟨?_, ?_, ?_, ?_, ?_⟩
  · constructor
    · intro h
      split_ifs at h with h1 h2 h3 h4
      all_goals omega
    · intro hb
      have h1 : ¬(n < 50 ∨ n > 50000) := by omega
      have h2 : ¬(k < 2 ∨ k > 64) := by omega
      have h3 : ¬(w < 0 ∨ w > 5) := by omega
      have h4 : ¬(d < 256 ∨ d > 4096) := by omega
      rw [if_neg h1, if_neg h2, if_neg h3, if_neg h4]
  · intro hn
    rw [if_pos hn]
  · intro hn1 hn2 hk
    rw [if_neg (by omega : ¬(n < 50 ∨ n > 50000)), if_pos hk]
  · intro hn1 hn2 hk1 hk2 hw
    rw [if_neg (by omega : ¬(n < 50 ∨ n > 50000)),
      if_neg (by omega : ¬(k < 2 ∨ k > 64)), if_pos hw]
  · intro hn1 hn2 hk1 hk2 hw1 hw2 hd
    rw [if_neg (by omega : ¬(n < 50 ∨ n > 50000)),
      if_neg (by omega : ¬(k < 2 ∨ k > 64)),
      if_neg (by omega : ¬(w < 0 ∨ w > 5)), if_pos hd]

/-- Witness for C2 (amended) at concrete parameter values. -/
theorem C2_validation_bounds_witness :
    processImageValidate 2000 12 1 2048 = none ∧
    processImageValidate 49 12 1 2048
      = some "Points must be between 50 and 50000" :=
  ⟨(C2_validation_bounds 2000 12 1 2048).1.mpr (by norm_num),
   (C2_validation_bounds 49 12 1 2048).2.1 (by norm_num)⟩

/-! ## Claim C7 -/

/-- C7: applying the width-configurable Voronoi border renderer with
width `W = 0` returns an output identical to the input rasterized
image — no pixel is changed and no black border pixels are introduced
(the function returns the input image unchanged). -/
theorem C7_border_width_zero_identity (img : RGBAImage) (points : List Point) :
    addVoronoiBordersWithWidth img points 0 = img := by
  unfold addVoronoiBordersWithWidth
  rw [if_pos rfl]

/-! ## Claim C3 -/

theorem bsAux_le (arr : List ℚ) (value : ℚ) :
    ∀ (n left right : Nat), right - left ≤ n → left ≤ right →
      bsAux arr value left right ≤ right := by
  intro n
  induction n with
  | zero =>
    intro left right hle hlr
    have : left = right := by omega
    subst this
    rw [bsAux]
    simp
  | succ n ih =>
    intro left right hle hlr
    rw [bsAux]
    by_cases h : left < right
    · rw [dif_pos h]
      by_cases hc : arr.getD ((left + right) / 2) 0 < value
      · rw [if_pos hc]
        exact ih ((left + right) / 2 + 1) right (by omega) (by omega)
      · rw [if_neg hc]
        exact (ih left ((left + right) / 2) (by omega) (by omega)).trans
          (by omega)
    · rw [dif_neg h]
      exact hlr

theorem binarySearch_lt_length (arr : List ℚ) (value : ℚ)
    (hne : arr ≠ []) : binarySearch arr value < arr.length := by
  have hlen : 1 ≤ arr.length := by
    cases arr with
    | nil => exact absurd rfl hne
    | cons a l => simp
  have := bsAux_le arr value (arr.length - 1) 0 (arr.length - 1)
    (by omega) (by omega)
  unfold binarySearch
  omega

theorem cumulativeFrom_length (s : ℚ) (ws : List ℚ) :
    (cumulativeFrom s ws).length = ws.length := by
  induction ws generalizing s with
  | nil => rfl
  | cons w ws ih => simp [cumulativeFrom, ih]

theorem getD_map_range (n i : Nat) (hi : i < n) {f : Nat → Point}
    {d : Point} : ((List.range n).map f).getD i d = f i := by
  have hi2 : i < ((List.range n).map f).length := by
    rw [List.length_map, List.length_range]; exact hi
  rw [List.getD_eq_getElem _ d hi2, List.getElem_map, List.getElem_range]

/-- C3: for every image with positive dimensions and every N ≥ 1 (and
any edge-weight field and random draws), the adaptive sampler produces
exactly N seeds; the i-th drawn seed carries index i, so the indices
form the contiguous range 0..N-1; and every seed's coordinates lie
within the image bounds. -/
theorem C3_sampler_count_index_bounds (img : RGBAImage) (numPoints : Nat)
    (edgeMap rng : Nat → ℚ) (hw : 0 < img.width) (hh : 0 < img.height)
    (_hn : 1 ≤ numPoints) :
    (generateAdaptiveVoronoiPoints img numPoints edgeMap rng).length
        = numPoints
    ∧ ∀ i, i < numPoints →
        ((generateAdaptiveVoronoiPoints img numPoints edgeMap rng).getD i
            pZero).index = (i : Int)
        ∧ img.minX ≤ ((generateAdaptiveVoronoiPoints img numPoints edgeMap
            rng).getD i pZero).x
        ∧ ((generateAdaptiveVoronoiPoints img numPoints edgeMap rng).getD i
            pZero).x < img.minX + img.width
        ∧ img.minY ≤ ((generateAdaptiveVoronoiPoints img numPoints edgeMap
            rng).getD i pZero).y
        ∧ ((generateAdaptiveVoronoiPoints img numPoints edgeMap rng).getD i
            pZero).y < img.minY + img.height := by
  unfold generateAdaptiveVoronoiPoints
  set weights := (List.range (img.width * img.height)).map
    (fun idx => 1 + edgeMap idx * 10) with hweights
  set cumulative := cumulativeFrom 0 weights with hcum
  have hclen : cumulative.length = img.width * img.height := by
    rw [hcum, cumulativeFrom_length, hweights, List.length_map,
      List.length_range]
  have hcne : cumulative ≠ [] := by
    intro hnil
    rw [hnil] at hclen
    simp at hclen
    rcases hclen with h | h <;> omega
  constructor
  · rw [List.length_map, List.length_range]
  · intro i hi
    rw [getD_map_range numPoints i hi]
    have hmod : binarySearch cumulative (rng i * weights.sum) % img.width
        < img.width := Nat.mod_lt _ hw
    have hidxlt : binarySearch cumulative (rng i * weights.sum)
        < img.width * img.height := by
      rw [← hclen]
      exact binarySearch_lt_length cumulative _ hcne
    have hdiv : binarySearch cumulative (rng i * weights.sum) / img.width
        < img.height := by
      rw [Nat.div_lt_iff_lt_mul hw]
      calc binarySearch cumulative (rng i * weights.sum)
          < img.width * img.height := hidxlt
        _ = img.height * img.width := Nat.mul_comm _ _
    have hmodI : ((binarySearch cumulative (rng i * weights.sum) % img.width
        : Nat) : Int) < (img.width : Int) := by exact_mod_cast hmod
    have hmod0 : (0 : Int) ≤ ((binarySearch cumulative (rng i * weights.sum)
        % img.width : Nat) : Int) := Int.natCast_nonneg _
    have hdivI : ((binarySearch cumulative (rng i * weights.sum) / img.width
        : Nat) : Int) < (img.height : Int) := by exact_mod_cast hdiv
    have hdiv0 : (0 : Int) ≤ ((binarySearch cumulative (rng i * weights.sum)
        / img.width : Nat) : Int) := Int.natCast_nonneg _
    refine ⟨rfl, ?_, ?_, ?_, ?_⟩
    · show img.minX
        ≤ ((binarySearch cumulative (rng i * weights.sum) % img.width : Nat)
            : Int) + img.minX
      linarith
    · show ((binarySearch cumulative (rng i * weights.sum) % img.width : Nat)
            : Int) + img.minX < img.minX + img.width
      linarith
    · show img.minY
        ≤ ((binarySearch cumulative (rng i * weights.sum) / img.width : Nat)
            : Int) + img.minY
      linarith
    · show ((binarySearch cumulative (rng i * weights.sum) / img.width : Nat)
            : Int) + img.minY < img.minY + img.height
      linarith

/-- Witness for C3 at a concrete 2x2 image and N = 1. -/
theorem C3_sampler_count_index_bounds_witness :
    (generateAdaptiveVoronoiPoints
        ⟨0, 0, 2, 2, List.replicate 4 cZero⟩ 1 (fun _ => 0)
        (fun _ => 0)).length = 1
    ∧ ∀ i, i < 1 →
        ((generateAdaptiveVoronoiPoints
            ⟨0, 0, 2, 2, List.replicate 4 cZero⟩ 1 (fun _ => 0)
            (fun _ => 0)).getD i pZero).index = (i : Int)
        ∧ (0 : Int) ≤ ((generateAdaptiveVoronoiPoints
            ⟨0, 0, 2, 2, List.replicate 4 cZero⟩ 1 (fun _ => 0)
            (fun _ => 0)).getD i pZero).x
        ∧ ((generateAdaptiveVoronoiPoints
            ⟨0, 0, 2, 2, List.replicate 4 cZero⟩ 1 (fun _ => 0)
            (fun _ => 0)).getD i pZero).x < (0 : Int) + (2 : Nat)
        ∧ (0 : Int) ≤ ((generateAdaptiveVoronoiPoints
            ⟨0, 0, 2, 2, List.replicate 4 cZero⟩ 1 (fun _ => 0)
            (fun _ => 0)).getD i pZero).y
        ∧ ((generateAdaptiveVoronoiPoints
            ⟨0, 0, 2, 2, List.replicate 4 cZero⟩ 1 (fun _ => 0)
            (fun _ => 0)).getD i pZero).y < (0 : Int) + (2 : Nat) :=
  C3_sampler_count_index_bounds ⟨0, 0, 2, 2, List.replicate 4 cZero⟩ 1
    (fun _ => 0) (fun _ => 0) (by norm_num) (by norm_num) (le_refl 1)

/-! ## Claim C4 -/

theorem fncAux_spec (c : Color) :
    ∀ (ps : List Color) (i nearest : Nat) (d : Int),
      (fncAux c ps i nearest (some d) = nearest
        ∧ ∀ k, k < ps.length →
            d ≤ colorDistanceSquared c (ps.getD k cZero))
      ∨ (∃ k, k < ps.length ∧ fncAux c ps i nearest (some d) = i + k
          ∧ colorDistanceSquared c (ps.getD k cZero) < d
          ∧ (∀ j, j < ps.length →
              colorDistanceSquared c (ps.getD k cZero)
                ≤ colorDistanceSquared c (ps.getD j cZero))
          ∧ (∀ j, j < k →
              colorDistanceSquared c (ps.getD k cZero)
                < colorDistanceSquared c (ps.getD j cZero))) := by
  intro ps
  induction ps with
  | nil =>
    intro i nearest d
    left
    constructor
    · rfl
    · intro k hk; simp at hk
  | cons p ps ih =>
    intro i nearest d
    by_cases hlt : colorDistanceSquared c p < d
    · have hstep : fncAux c (p :: ps) i nearest (some d)
          = fncAux c ps (i + 1) i (some (colorDistanceSquared c p)) := by
        simp [fncAux, hlt]
      rcases ih (i + 1) i (colorDistanceSquared c p) with ⟨hres, hall⟩ |
        ⟨k, hk, hres, hltk, hmin, hstrict⟩
      · right
        refine ⟨0, by simp, ?_, ?_, ?_, ?_⟩
        · rw [hstep, hres]; omega
        · simpa using hlt
        · intro j hj
          cases j with
          | zero => exact le_refl _
          | succ j' =>
            simp only [List.getD_cons_succ, List.getD_cons_zero]
            exact hall j' (by simpa using hj)
        · intro j hj; omega
      · right
        refine ⟨k + 1, by simpa using hk, ?_, ?_, ?_, ?_⟩
        · rw [hstep, hres]; omega
        · simp only [List.getD_cons_succ]
          exact hltk.trans hlt
        · intro j hj
          cases j with
          | zero =>
            simp only [List.getD_cons_succ, List.getD_cons_zero]
            exact le_of_lt hltk
          | succ j' =>
            simp only [List.getD_cons_succ]
            exact hmin j' (by simpa using hj)
        · intro j hj
          cases j with
          | zero =>
            simp only [List.getD_cons_succ, List.getD_cons_zero]
            exact hltk
          | succ j' =>
            simp only [List.getD_cons_succ]
            exact hstrict j' (by omega)
    · have hstep : fncAux c (p :: ps) i nearest (some d)
          = fncAux c ps (i + 1) nearest (some d) := by
        simp [fncAux, hlt]
      rcases ih (i + 1) nearest d with ⟨hres, hall⟩ |
        ⟨k, hk, hres, hltk, hmin, hstrict⟩
      · left
        refine ⟨by rw [hstep, hres], ?_⟩
        intro k hk
        cases k with
        | zero =>
          simp only [List.getD_cons_zero]
          exact le_of_not_lt hlt
        | succ k' => exact hall k' (by simpa using hk)
      · right
        refine ⟨k + 1, by simpa using hk, ?_, ?_, ?_, ?_⟩
        · rw [hstep, hres]; omega
        · simpa only [List.getD_cons_succ] using hltk
        · intro j hj
          cases j with
          | zero =>
            simp only [List.getD_cons_succ, List.getD_cons_zero]
            exact le_of_lt (lt_of_lt_of_le hltk (le_of_not_lt hlt))
          | succ j' =>
            simp only [List.getD_cons_succ]
            exact hmin j' (by simpa using hj)
        · intro j hj
          cases j with
          | zero =>
            simp only [List.getD_cons_succ, List.getD_cons_zero]
            exact lt_of_lt_of_le hltk (le_of_not_lt hlt)
          | succ j' =>
            simp only [List.getD_cons_succ]
            exact hstrict j' (by omega)

theorem findNearestColor_spec (c : Color) (ps : List Color) (hne : ps ≠ []) :
    findNearestColor c ps < ps.length
    ∧ (∀ j, j < ps.length →
        colorDistanceSquared c (ps.getD (findNearestColor c ps) cZero)
          ≤ colorDistanceSquared c (ps.getD j cZero))
    ∧ (∀ j, j < findNearestColor c ps →
        colorDistanceSquared c (ps.getD (findNearestColor c ps) cZero)
          < colorDistanceSquared c (ps.getD j cZero)) := by
  cases ps with
  | nil => exact absurd rfl hne
  | cons p ps =>
    have hstep : findNearestColor c (p :: ps)
        = fncAux c ps 1 0 (some (colorDistanceSquared c p)) := rfl
    rcases fncAux_spec c ps 1 0 (colorDistanceSquared c p) with
      ⟨hres, hall⟩ | ⟨k, hk, hres, hltk, hmin, hstrict⟩
    · rw [hstep, hres]
      refine ⟨by simp, ?_, ?_⟩
      · intro j hj
        cases j with
        | zero => exact le_refl _
        | succ j' =>
          simp only [List.getD_cons_succ, List.getD_cons_zero]
          exact hall j' (by simpa using hj)
      · intro j hj; omega
    · have hik : (1 : Nat) + k = k + 1 := Nat.add_comm 1 k
      rw [hstep, hres, hik]
      refine ⟨by simp; omega, ?_, ?_⟩
      · intro j hj
        cases j with
        | zero =>
          simp only [List.getD_cons_succ, List.getD_cons_zero]
          exact le_of_lt hltk
        | succ j' =>
          simp only [List.getD_cons_succ]
          exact hmin j' (by simpa using hj)
      · intro j hj
        cases j with
        | zero =>
          simp only [List.getD_cons_succ, List.getD_cons_zero]
          exact hltk
        | succ j' =>
          simp only [List.getD_cons_succ]
          exact hstrict j' (by omega)

theorem colorDistanceSquared_self (c : Color) :
    colorDistanceSquared c c = 0 := by
  unfold colorDistanceSquared
  ring

theorem colorDistanceSquared_expand (a b : Color) :
    colorDistanceSquared a b
      = ((a.r : Int) * 257 - (b.r : Int) * 257)
          * ((a.r : Int) * 257 - (b.r : Int) * 257)
        + ((a.g : Int) * 257 - (b.g : Int) * 257)
          * ((a.g : Int) * 257 - (b.g : Int) * 257)
        + ((a.b : Int) * 257 - (b.b : Int) * 257)
          * ((a.b : Int) * 257 - (b.b : Int) * 257) := rfl

theorem colorDistanceSquared_nonneg (a b : Color) :
    0 ≤ colorDistanceSquared a b := by
  rw [colorDistanceSquared_expand]
  exact add_nonneg (add_nonneg (mul_self_nonneg _) (mul_self_nonneg _))
    (mul_self_nonneg _)

theorem colorDistance_congr_of_zero (a b : Color)
    (h : colorDistanceSquared a b = 0) (c : Color) :
    colorDistanceSquared c a = colorDistanceSquared c b := by
  rw [colorDistanceSquared_expand] at h
  have er : (a.r : Int) * 257 = (b.r : Int) * 257 := by
    nlinarith [mul_self_nonneg ((a.r : Int) * 257 - (b.r : Int) * 257),
      mul_self_nonneg ((a.g : Int) * 257 - (b.g : Int) * 257),
      mul_self_nonneg ((a.b : Int) * 257 - (b.b : Int) * 257)]
  have eg : (a.g : Int) * 257 = (b.g : Int) * 257 := by
    nlinarith [mul_self_nonneg ((a.r : Int) * 257 - (b.r : Int) * 257),
      mul_self_nonneg ((a.g : Int) * 257 - (b.g : Int) * 257),
      mul_self_nonneg ((a.b : Int) * 257 - (b.b : Int) * 257)]
  have eb : (a.b : Int) * 257 = (b.b : Int) * 257 := by
    nlinarith [mul_self_nonneg ((a.r : Int) * 257 - (b.r : Int) * 257),
      mul_self_nonneg ((a.g : Int) * 257 - (b.g : Int) * 257),
      mul_self_nonneg ((a.b : Int) * 257 - (b.b : Int) * 257)]
  rw [colorDistanceSquared_expand, colorDistanceSquared_expand, er, eg, eb]

theorem findNearestColor_fixed (pal : List Color) (hne : pal ≠ [])
    (c : Color) :
    findNearestColor (pal.getD (findNearestColor c pal) cZero) pal
      = findNearestColor c pal := by
  obtain ⟨hilt, _himin, histrict⟩ := findNearestColor_spec c pal hne
  obtain ⟨hmlt, hmmin, hmstrict⟩ :=
    findNearestColor_spec (pal.getD (findNearestColor c pal) cZero) pal hne
  rcases lt_trichotomy
    (findNearestColor (pal.getD (findNearestColor c pal) cZero) pal)
    (findNearestColor c pal) with hlt | heq | hgt
  · exfalso
    -- the second scan found a zero-distance entry strictly earlier;
    -- it must share the 16-bit RGB of the first winner, so the first
    -- scan would have stopped there already
    have h1 : colorDistanceSquared (pal.getD (findNearestColor c pal) cZero)
        (pal.getD (findNearestColor
          (pal.getD (findNearestColor c pal) cZero) pal) cZero) ≤ 0 := by
      have := hmmin (findNearestColor c pal) hilt
      rwa [colorDistanceSquared_self] at this
    have h2 : colorDistanceSquared (pal.getD (findNearestColor c pal) cZero)
        (pal.getD (findNearestColor
          (pal.getD (findNearestColor c pal) cZero) pal) cZero) = 0 :=
      le_antisymm h1 (colorDistanceSquared_nonneg _ _)
    have h4 : colorDistanceSquared c
        (pal.getD (findNearestColor
          (pal.getD (findNearestColor c pal) cZero) pal) cZero)
        = colorDistanceSquared c (pal.getD (findNearestColor c pal) cZero) :=
      (colorDistance_congr_of_zero _ _ h2 c).symm
    have h5 := histrict _ hlt
    rw [h4] at h5
    exact absurd h5 (lt_irrefl _)
  · exact heq
  · exfalso
    have := hmstrict _ hgt
    rw [colorDistanceSquared_self] at this
    exact absurd (lt_of_le_of_lt (colorDistanceSquared_nonneg _ _) this)
      (lt_irrefl _)

theorem quantizePoints_eq_map (points : List Point) (palette : List Color)
    (hne : palette ≠ []) :
    quantizePoints points palette
      = some (points.map (fun p =>
          { x := p.x, y := p.y,
            color := palette.getD (findNearestColor p.color palette) cZero,
            index := p.index })) := by
  induction points with
  | nil => rfl
  | cons p ps ih =>
    unfold quantizePoints at ih ⊢
    rw [List.mapM_cons]
    have hlt : findNearestColor p.color palette < palette.length :=
      (findNearestColor_spec p.color palette hne).1
    rw [if_pos hlt, ih]
    rfl

/-- C4: quantization is idempotent.  For every non-empty palette and
every seed list, quantizing succeeds, quantizing the result again
returns it unchanged (so no seed's color changes), and each pass
preserves every seed's coordinates and index. -/
theorem C4_quantization_idempotent (points : List Point)
    (palette : List Color) (hne : palette ≠ []) :
    ∃ qs, quantizePoints points palette = some qs
      ∧ quantizePoints qs palette = some qs
      ∧ qs.length = points.length
      ∧ ∀ i, i < points.length →
          (qs.getD i pZero).x = (points.getD i pZero).x
          ∧ (qs.getD i pZero).y = (points.getD i pZero).y
          ∧ (qs.getD i pZero).index = (points.getD i pZero).index := by
  refine ⟨points.map (fun p =>
      { x := p.x, y := p.y,
        color := palette.getD (findNearestColor p.color palette) cZero,
        index := p.index }),
    quantizePoints_eq_map points palette hne, ?_, by simp, ?_⟩
  · rw [quantizePoints_eq_map _ palette hne, List.map_map]
    congr 1
    apply List.map_congr_left
    intro p _
    simp only [Function.comp_apply]
    rw [findNearestColor_fixed palette hne p.color]
  · intro i hi
    have hgd : ((points.map (fun p =>
        ({ x := p.x, y := p.y,
           color := palette.getD (findNearestColor p.color palette) cZero,
           index := p.index } : Point))).getD i pZero)
        = { x := (points.getD i pZero).x, y := (points.getD i pZero).y,
            color := palette.getD
              (findNearestColor (points.getD i pZero).color palette) cZero,
            index := (points.getD i pZero).index } := by
      rw [List.getD_eq_getElem _ _ (by simpa using hi), List.getElem_map,
        List.getD_eq_getElem _ _ hi]
    rw [hgd]
    exact ⟨rfl, rfl, rfl⟩

/-- Witness for C4 at a concrete palette and seed list. -/
theorem C4_quantization_idempotent_witness :
    ∃ qs, quantizePoints [⟨1, 2, ⟨200, 10, 10, 255⟩, 0⟩]
        [⟨255, 0, 0, 255⟩, ⟨0, 0, 255, 255⟩] = some qs
      ∧ quantizePoints qs [⟨255, 0, 0, 255⟩, ⟨0, 0, 255, 255⟩] = some qs
      ∧ qs.length = [(⟨1, 2, ⟨200, 10, 10, 255⟩, 0⟩ : Point)].length
      ∧ ∀ i, i < [(⟨1, 2, ⟨200, 10, 10, 255⟩, 0⟩ : Point)].length →
          (qs.getD i pZero).x
            = ([(⟨1, 2, ⟨200, 10, 10, 255⟩, 0⟩ : Point)].getD i pZero).x
          ∧ (qs.getD i pZero).y
            = ([(⟨1, 2, ⟨200, 10, 10, 255⟩, 0⟩ : Point)].getD i pZero).y
          ∧ (qs.getD i pZero).index
            = ([(⟨1, 2, ⟨200, 10, 10, 255⟩, 0⟩ : Point)].getD i pZero).index :=
  C4_quantization_idempotent [⟨1, 2, ⟨200, 10, 10, 255⟩, 0⟩]
    [⟨255, 0, 0, 255⟩, ⟨0, 0, 255, 255⟩] (by decide)

/-! ## Claim C5 -/

theorem getD_replicate_of_lt {α : Type} (n i : Nat) (a d : α) (h : i < n) :
    (List.replicate n a).getD i d = a := by
  rw [List.getD_eq_getElem _ _ (by simpa using h)]
  simp

theorem minDist_fold_keep_zero (c : Color) :
    ∀ (ctrs : List Color),
      ctrs.foldl (fun m ctr =>
        let d := colorDistanceSquared c ctr
        match m with
        | none => some d
        | some m0 => if d < m0 then some d else some m0) (some 0)
      = some 0 := by
  intro ctrs
  induction ctrs with
  | nil => rfl
  | cons ctr rest ih =>
    have hnn := colorDistanceSquared_nonneg c ctr
    simp only [List.foldl_cons]
    rw [if_neg (by omega)]
    exact ih

theorem minDist_replicate (c : Color) (m : Nat) (hm : 1 ≤ m) :
    minDistToCentroids c (List.replicate m c) = some 0 := by
  obtain ⟨m', rfl⟩ : ∃ m', m = m' + 1 := ⟨m - 1, by omega⟩
  unfold minDistToCentroids
  rw [List.replicate_succ, List.foldl_cons]
  have h0 : colorDistanceSquared c c = 0 := colorDistanceSquared_self c
  simp only [h0]
  exact minDist_fold_keep_zero c (List.replicate m' c)

theorem fncAux_keep_of_zero (c : Color) :
    ∀ (ps : List Color) (i nearest : Nat),
      fncAux c ps i nearest (some 0) = nearest := by
  intro ps
  induction ps with
  | nil => intro i nearest; rfl
  | cons p rest ih =>
    intro i nearest
    have hnn := colorDistanceSquared_nonneg c p
    unfold fncAux
    simp only []
    rw [if_neg (not_lt.mpr hnn)]
    exact ih (i + 1) nearest

theorem findNearestColor_self_head (c : Color) (rest : List Color) :
    findNearestColor c (c :: rest) = 0 := by
  unfold findNearestColor fncAux
  rw [colorDistanceSquared_self]
  exact fncAux_keep_of_zero c rest 1 0

theorem pickIndex_replicate_zero (n : Nat) (hn : 1 ≤ n) :
    pickIndex (List.replicate n (0 : Int)) 0 = some 0 := by
  obtain ⟨n', rfl⟩ : ∃ n', n = n' + 1 := ⟨n - 1, by omega⟩
  unfold pickIndex pickIndexAux
  rw [List.replicate_succ]
  simp

theorem kmeansInit_replicate (c : Color) (N k : Nat) (rng : Nat → ℚ)
    (hN : 1 ≤ N) :
    ∀ (fuel m round : Nat), 1 ≤ m → m ≤ k → k ≤ m + fuel →
      kmeansInitLoop (List.replicate N c) rng fuel k (List.replicate m c)
          round
        = some (List.replicate k c) := by
  intro fuel
  induction fuel with
  | zero =>
    intro m round h1 h2 h3
    have : m = k := by omega
    subst this
    unfold kmeansInitLoop
    rw [if_neg (by simp)]
  | succ fuel ih =>
    intro m round h1 h2 h3
    by_cases hmk : m < k
    · unfold kmeansInitLoop
      rw [if_pos (by simpa using hmk)]
      have hdists : (List.replicate N c).map
          (fun x => (minDistToCentroids x (List.replicate m c)).getD 0)
          = List.replicate N (0 : Int) := by
        rw [List.map_replicate, minDist_replicate c m h1]
        rfl
      rw [hdists]
      simp only []
      have hsum : (List.replicate N (0 : Int)).sum = 0 := by simp
      rw [hsum]
      have htgt : rng round * ((0 : Int) : ℚ) = 0 := by
        simp
      rw [htgt, pickIndex_replicate_zero N hN]
      simp only []
      have hget : (List.replicate N c).getD 0 cZero = c :=
        getD_replicate_of_lt N 0 c cZero (by omega)
      rw [hget, ← List.replicate_succ' m c]
      exact ih (m + 1) (round + 1) (by omega) (by omega) (by omega)
    · unfold kmeansInitLoop
      have : m = k := by omega
      subst this
      rw [if_neg (by simp)]

theorem assign_fold_replicate (c : Color) (k' : Nat) (rest : List Color) :
    ∀ (n : Nat) (cur : List Color),
      (List.replicate n c).foldl (fun acc x =>
        match acc with
        | none => none
        | some clusters =>
          let nearest := findNearestColor x (c :: rest)
          if nearest < clusters.length then
            some (clusters.set nearest (clusters.getD nearest [] ++ [x]))
          else none)
        (some (cur :: List.replicate k' []))
      = some ((cur ++ List.replicate n c) :: List.replicate k' []) := by
  intro n
  induction n with
  | zero => intro cur; simp
  | succ n ih =>
    intro cur
    rw [List.replicate_succ, List.foldl_cons]
    have hfnc : findNearestColor c (c :: rest) = 0 :=
      findNearestColor_self_head c rest
    simp only [hfnc]
    rw [if_pos (by simp)]
    have hset : (cur :: List.replicate k' []).set 0
        ((cur :: List.replicate k' []).getD 0 [] ++ [c])
        = (cur ++ [c]) :: List.replicate k' [] := by
      simp
    rw [hset, ih (cur ++ [c])]
    rw [List.append_assoc, ← List.replicate_succ]
    rfl

theorem assignClusters_replicate (c : Color) (N k' : Nat) :
    assignClusters (List.replicate N c) (List.replicate (k' + 1) c) (k' + 1)
      = some ((List.replicate N c) :: List.replicate k' []) := by
  unfold assignClusters
  rw [List.replicate_succ c k']
  have hinit : List.replicate (k' + 1) ([] : List Color)
      = ([] : List Color) :: List.replicate k' [] := List.replicate_succ _ _
  rw [hinit]
  have := assign_fold_replicate c k' (List.replicate k' c) N []
  simpa using this

theorem averageColor_replicate_c0 (N : Nat) (hN : 1 ≤ N) :
    averageColor (List.replicate N ⟨10, 20, 30, 255⟩) = ⟨10, 20, 30, 255⟩ := by
  unfold averageColor
  rw [List.map_replicate, List.map_replicate, List.map_replicate,
    List.map_replicate]
  simp only [List.sum_replicate, smul_eq_mul, List.length_replicate]
  have h10 : N * (10 * 257) / N = 2570 := by
    rw [Nat.mul_div_cancel_left _ (by omega : 0 < N)]
  have h20 : N * (20 * 257) / N = 5140 := by
    rw [Nat.mul_div_cancel_left _ (by omega : 0 < N)]
  have h30 : N * (30 * 257) / N = 7710 := by
    rw [Nat.mul_div_cancel_left _ (by omega : 0 < N)]
  have h255 : N * (255 * 257) / N = 65535 := by
    rw [Nat.mul_div_cancel_left _ (by omega : 0 < N)]
  rw [h10, h20, h30, h255]
  rfl

theorem updateCentroids_empty_clusters (c : Color) :
    ∀ (k' : Nat),
      updateCentroidsAux (List.replicate k' ([] : List Color))
          (List.replicate k' c)
        = some (List.replicate k' c, false) := by
  intro k'
  induction k' with
  | zero => rfl
  | succ k ih =>
    rw [List.replicate_succ, List.replicate_succ]
    unfold updateCentroidsAux
    rw [ih]
    simp

theorem updateCentroids_replicate_c0 (N k' : Nat) (hN : 1 ≤ N) :
    updateCentroidsAux
        ((List.replicate N ⟨10, 20, 30, 255⟩) :: List.replicate k' [])
        (List.replicate (k' + 1) ⟨10, 20, 30, 255⟩)
      = some (List.replicate (k' + 1) ⟨10, 20, 30, 255⟩, false) := by
  rw [List.replicate_succ (⟨10, 20, 30, 255⟩ : Color) k']
  unfold updateCentroidsAux
  rw [updateCentroids_empty_clusters]
  simp only []
  have hlen : (List.replicate N (⟨10, 20, 30, 255⟩ : Color)).length > 0 := by
    simp; omega
  rw [if_pos hlen]
  rw [averageColor_replicate_c0 N hN]
  rw [if_pos (by rfl : colorsEqual ⟨10, 20, 30, 255⟩ ⟨10, 20, 30, 255⟩ = true)]

theorem kmeansIterate_replicate_c0 (N k' : Nat) (hN : 1 ≤ N) :
    kmeansIterate (List.replicate N ⟨10, 20, 30, 255⟩) (k' + 1)
        (List.replicate (k' + 1) ⟨10, 20, 30, 255⟩) 15
      = some (List.replicate (k' + 1) ⟨10, 20, 30, 255⟩) := by
  unfold kmeansIterate
  rw [assignClusters_replicate]
  simp only []
  rw [updateCentroids_replicate_c0 N k' hN]
  rfl

/-- C5: for every N ≥ 1, every requested palette size K ≥ 1 and every
choice of random draws, k-means++ clustering on N copies of the single
color {10, 20, 30, 255} yields a non-empty palette in which every
entry equals {10, 20, 30, 255}. -/
theorem C5_kmeans_single_color (N k firstIdx : Nat) (rng : Nat → ℚ)
    (hN : 1 ≤ N) (hk : 1 ≤ k) (hfi : firstIdx < N) :
    ∃ cs, kMeansClustering (List.replicate N ⟨10, 20, 30, 255⟩) k firstIdx
        rng = some cs
      ∧ cs ≠ [] ∧ ∀ x ∈ cs, x = (⟨10, 20, 30, 255⟩ : Color) := by
  unfold kMeansClustering
  rw [if_neg (by simp; omega)]
  by_cases hkN : (List.replicate N (⟨10, 20, 30, 255⟩ : Color)).length ≤ k
  · rw [if_pos hkN]
    refine ⟨List.replicate N ⟨10, 20, 30, 255⟩, rfl, ?_, ?_⟩
    · simp only [ne_eq, List.replicate_eq_nil_iff]
      omega
    · intro x hx
      exact List.eq_of_mem_replicate hx
  · rw [if_neg hkN]
    have hget : (List.replicate N (⟨10, 20, 30, 255⟩ : Color)).getD firstIdx
        cZero = ⟨10, 20, 30, 255⟩ :=
      getD_replicate_of_lt N firstIdx _ cZero hfi
    rw [hget]
    have hone : [(⟨10, 20, 30, 255⟩ : Color)]
        = List.replicate 1 ⟨10, 20, 30, 255⟩ := rfl
    rw [hone]
    simp only []
    rw [kmeansInit_replicate ⟨10, 20, 30, 255⟩ N k rng hN k 1 0 (by omega)
      hk (by omega)]
    simp only []
    obtain ⟨k', rfl⟩ : ∃ k', k = k' + 1 := ⟨k - 1, by omega⟩
    rw [kmeansIterate_replicate_c0 N k' hN]
    refine ⟨List.replicate (k' + 1) ⟨10, 20, 30, 255⟩, rfl, by simp, ?_⟩
    intro x hx
    exact List.eq_of_mem_replicate hx

/-- Witness for C5 at concrete N = 3, K = 2. -/
theorem C5_kmeans_single_color_witness :
    ∃ cs, kMeansClustering (List.replicate 3 ⟨10, 20, 30, 255⟩) 2 0
        (fun _ => 1 / 2) = some cs
      ∧ cs ≠ [] ∧ ∀ x ∈ cs, x = (⟨10, 20, 30, 255⟩ : Color) :=
  C5_kmeans_single_color 3 2 0 (fun _ => 1 / 2) (by omega) (by omega)
    (by omega)

/-! ## Claim C6 -/

theorem map_singleton_inv {α β : Type} (f : α → β) (l : List α) (v : β)
    (hmap : l.map f = [v]) : ∃ r, l = [r] ∧ f r = v := by
  cases l with
  | nil => simp at hmap
  | cons r rest =>
    cases rest with
    | nil =>
      simp only [List.map_cons, List.map_nil] at hmap
      injection hmap with h1 _
      exact ⟨r, rfl, h1⟩
    | cons s ss => simp at hmap

set_option maxRecDepth 100000 in
/-- C6: in the region labeler, a single 4-connected region of exactly
150 pixels sharing one seed assignment (a 15x10 image with one seed)
yields exactly one found region, whose centroid is the integer mean
(7, 4) of its member coordinates and whose area is 150, and
`addRegionNumbers` stamps exactly one numeral, at that centroid; a
99-pixel region (an 11x9 image with one seed) yields no region and no
stamp — the output is just the copied input. -/
theorem C6_region_labeler_150_and_99 :
    (findRegions ⟨0, 0, 15, 10, List.replicate 150 ⟨200, 0, 0, 255⟩⟩
        [⟨7, 4, ⟨200, 0, 0, 255⟩, 0⟩]
        (NewKDTree [⟨7, 4, ⟨200, 0, 0, 255⟩, 0⟩]).1).map
      (fun r => (r.colorIndex, r.centroid, r.area)) = [(0, (7, 4), 150)]
    ∧ addRegionNumbers ⟨0, 0, 15, 10, List.replicate 150 ⟨200, 0, 0, 255⟩⟩
        [⟨7, 4, ⟨200, 0, 0, 255⟩, 0⟩]
        (NewKDTree [⟨7, 4, ⟨200, 0, 0, 255⟩, 0⟩]).1
      = drawNumber
          (copyImage ⟨0, 0, 15, 10, List.replicate 150 ⟨200, 0, 0, 255⟩⟩)
          1 7 4
    ∧ findRegions ⟨0, 0, 11, 9, List.replicate 99 ⟨200, 0, 0, 255⟩⟩
        [⟨7, 4, ⟨200, 0, 0, 255⟩, 0⟩]
        (NewKDTree [⟨7, 4, ⟨200, 0, 0, 255⟩, 0⟩]).1 = []
    ∧ addRegionNumbers ⟨0, 0, 11, 9, List.replicate 99 ⟨200, 0, 0, 255⟩⟩
        [⟨7, 4, ⟨200, 0, 0, 255⟩, 0⟩]
        (NewKDTree [⟨7, 4, ⟨200, 0, 0, 255⟩, 0⟩]).1
      = copyImage ⟨0, 0, 11, 9, List.replicate 99 ⟨200, 0, 0, 255⟩⟩ := by
  rw [show (NewKDTree [(⟨7, 4, ⟨200, 0, 0, 255⟩, 0⟩ : Point)]).1
      = ⟨.node ⟨7, 4, ⟨200, 0, 0, 255⟩, 0⟩ .nil .nil 0⟩ from by
    simp [NewKDTree, buildKDTree]]
  have ha : (findRegions ⟨0, 0, 15, 10, List.replicate 150 ⟨200, 0, 0, 255⟩⟩
      [⟨7, 4, ⟨200, 0, 0, 255⟩, 0⟩]
      ⟨.node ⟨7, 4, ⟨200, 0, 0, 255⟩, 0⟩ .nil .nil 0⟩).map
      (fun r => (r.colorIndex, r.centroid, r.area)) = [(0, (7, 4), 150)] := by
    decide
  have hb : findRegions ⟨0, 0, 11, 9, List.replicate 99 ⟨200, 0, 0, 255⟩⟩
      [⟨7, 4, ⟨200, 0, 0, 255⟩, 0⟩]
      ⟨.node ⟨7, 4, ⟨200, 0, 0, 255⟩, 0⟩ .nil .nil 0⟩ = [] := by
    decide
  refine ⟨ha, ?_, hb, ?_⟩
  · obtain ⟨r, hl, h1⟩ := map_singleton_inv _ _ _ ha
    have hc1 : r.colorIndex + 1 = 1 := by
      have : r.colorIndex = 0 := by simpa using congrArg Prod.fst h1
      rw [this]; norm_num
    have hcen1 : r.centroid.1 = 7 := by
      simpa using congrArg (fun t => t.2.1.1) h1
    have hcen2 : r.centroid.2 = 4 := by
      simpa using congrArg (fun t => t.2.1.2) h1
    unfold addRegionNumbers
    rw [hl, List.foldl_cons, List.foldl_nil, hc1, hcen1, hcen2]
  · unfold addRegionNumbers
    rw [hb, List.foldl_nil]
